import Mathlib

/-!
# ROC_SHMEM reverse-offload command queue: device-side enqueue protocol

A shallow embedding of `library/src/reverse_offload/ro_net_gpu.cpp` and of the
data layout in `ro_net_internal.hpp`.

* 64-bit unsigned indices are natural numbers with explicit reduction modulo `2^64`.
* Pointers are addresses (natural numbers, `0` is `nullptr`); the ring and the status
  array that the channel state points to are modelled by their contents.
* `build_queue_element` is embedded twice.  The function `build_queue_element` is the
  code as run by one thread without interference on `write_idx`; the values that its
  uncached loads of host memory return are an input (`Host`).  The transition function
  `step` is the slot acquisition loop (lines 245 to 265) at the granularity of single
  accesses to shared memory, for any number of threads and a draining consumer.
* The stores of `build_queue_element` to the ring are kept as a sequence in program order
  (`Store`), and the ring on return is the result of performing them one by one. The
  unbounded `memcpy` of an inline payload is given on the byte layout of `queue_element_t`.
* Profiler timers and memory fences have no effect on the values modelled and are left out.
-/

set_option linter.unusedVariables false

namespace ROC_SHMEM

/-! ## Machine arithmetic -/

/-- The modulus of `uint64_t` arithmetic, `2^64`. -/
abbrev U64 : Nat := 18446744073709551616

/-- Subtraction of `uint64_t` values, `a - b` in C. -/
def sub64 (a b : Nat) : Nat := (a % U64 + (U64 - b % U64)) % U64

/-- Increment of an `unsigned long long`, `a + 1` in C. -/
def succ64 (a : Nat) : Nat := (a + 1) % U64

/-- Conversion of a `size_t` to `int` (two's complement, 32 bits), as done by the
assignment `handle->queue[write_slot].size = size`. -/
def size_to_int (size : Nat) : Int :=
  if size % 4294967296 < 2147483648 then ((size % 4294967296 : Nat) : Int)
  else ((size % 4294967296 : Nat) : Int) - 4294967296

/-! ## Data model (`ro_net_internal.hpp`) -/

/-- Command kinds, `enum ro_net_cmds`. -/
inductive ro_net_cmds where
  | RO_NET_PUT
  | RO_NET_P
  | RO_NET_GET
  | RO_NET_PUT_NBI
  | RO_NET_GET_NBI
  | RO_NET_FENCE
  | RO_NET_QUIET
  | RO_NET_FINALIZE
  | RO_NET_TO_ALL
  | RO_NET_BARRIER_ALL
  deriving DecidableEq, Repr

/-- Element datatypes, `enum ro_net_types`. -/
inductive ro_net_types where
  | RO_NET_FLOAT
  | RO_NET_DOUBLE
  | RO_NET_INT
  | RO_NET_LONG
  | RO_NET_LONG_LONG
  | RO_NET_SHORT
  | RO_NET_LONG_DOUBLE
  deriving DecidableEq, Repr

/-- The enumerator value stored in the `int datatype` field. -/
def ro_net_types.toInt : ro_net_types → Int
  | .RO_NET_FLOAT => 0
  | .RO_NET_DOUBLE => 1
  | .RO_NET_INT => 2
  | .RO_NET_LONG => 3
  | .RO_NET_LONG_LONG => 4
  | .RO_NET_SHORT => 5
  | .RO_NET_LONG_DOUBLE => 6

/-- The enumerator value stored in the `type` field of an element. -/
def ro_net_cmds.toInt : ro_net_cmds → Int
  | .RO_NET_PUT => 0
  | .RO_NET_P => 1
  | .RO_NET_GET => 2
  | .RO_NET_PUT_NBI => 3
  | .RO_NET_GET_NBI => 4
  | .RO_NET_FENCE => 5
  | .RO_NET_QUIET => 6
  | .RO_NET_FINALIZE => 7
  | .RO_NET_TO_ALL => 8
  | .RO_NET_BARRIER_ALL => 9

/-- One command record of the ring, `queue_element_t` (padding left out). Every field is the
value of the object in memory: `valid` of the `char`, `type` the `int`-sized value of the
`ro_net_cmds` object (an inline copy that runs past the `src` field of an earlier element can
leave any bit pattern there), the `int` fields as integers, the pointers as addresses. -/
structure queue_element where
  valid : Int
  type : Int
  PE : Int
  size : Int
  src : Nat
  dst : Nat
  threadId : Int
  logPE_stride : Int
  PE_size : Int
  pWrk : Nat
  pSync : Nat
  op : Int
  datatype : Int
  deriving DecidableEq, Repr

/-- The shared descriptor of one channel, `queue_desc_t`. The field `status` is the array
that the `char *status` pointer refers to. -/
structure queue_desc where
  read_idx : Nat
  write_idx : Nat
  status : Int → Int

/-- The part of `struct ro_net_handle` used by the device code: the rings, their
descriptors and the common capacity. -/
structure ro_net_handle where
  queues : Nat → Nat → queue_element
  queue_descs : Nat → queue_desc
  queue_size : Nat

/-- The channel state local to a work-group, `struct ro_net_wg_handle`. The fields `queue`
and `status` hold the contents of the ring and of the status array behind the pointers;
`host_read_idx` (a pointer to the descriptor's read index) is represented by the values
its loads return, see `Host`. -/
structure ro_net_wg_handle where
  queue : Nat → queue_element
  read_idx : Nat
  write_idx : Nat
  queue_size : Nat
  status : Int → Int

/-- What a device thread observes of memory that the host owns: the value returned by the
k-th uncached load through `host_read_idx`, the value returned by the k-th uncached load
of `status[threadId]`, and the bytes of device memory that an inline command copies. -/
structure Host where
  read_idx : Nat → Nat
  status : Nat → Int
  mem : Nat → Nat

/-- One store of `build_queue_element` to the ring, lines 271 to 318: an assignment to a
field of the element at the physical slot, or the `memcpy` of line 278 whose destination is
the `src` field (`inline_src src size` copies `size` bytes from the address `src`). -/
inductive Store where
  | type (v : ro_net_cmds)
  | PE (v : Int)
  | size (v : Int)
  | dst (v : Nat)
  | src (v : Nat)
  | inline_src (src size : Nat)
  | threadId (v : Int)
  | logPE_stride (v : Int)
  | PE_size (v : Int)
  | pWrk (v : Nat)
  | pSync (v : Nat)
  | op (v : Int)
  | datatype (v : Int)
  | valid (v : Int)
  deriving DecidableEq, Repr

/-- The result of one call of `build_queue_element`: the channel state on return, the
logical index obtained from the successful compare-and-swap, the number of loads of the
host read index and of the status byte that the call performed, and the stores of the call
to the ring in program order. -/
structure Outcome where
  handle : ro_net_wg_handle
  claimed : Nat
  read_loads : Nat
  status_loads : Nat
  stores : List Store

/-! ## Internal device-side functions (`ro_net_gpu.cpp`, lines 228 to 340) -/

/-- Line 228 to 231, `isFull`: `(queue_size - (write_idx - read_idx)) == 0` on `uint64_t`. -/
def isFull (read_idx write_idx queue_size : Nat) : Bool :=
  sub64 queue_size (sub64 write_idx read_idx) == 0

/-- The primitive `atomicCAS(address, compare, val)`: the new content of the location and
the value returned (the old content). -/
def atomicCAS (content compare val : Nat) : Nat × Nat :=
  (if content = compare then val else content, content)

/-- Line 270: the physical slot of a claimed logical index. -/
def physical_slot (write_slot queue_size : Nat) : Nat := write_slot % queue_size

/-- Lines 252 to 259: while the ring looks full to the local read index, reload the local
read index through `host_read_idx`. `k` counts the loads done so far; the result is the
channel state and the load count at loop exit. -/
def poll_while_full (loads : Nat → Nat) (write_slot : Nat) :
    Nat → Nat → ro_net_wg_handle → Option (ro_net_wg_handle × Nat)
  | 0, _, _ => none
  | fuel + 1, k, handle =>
    if isFull handle.read_idx write_slot handle.queue_size then
      poll_while_full loads write_slot fuel (k + 1) { handle with read_idx := loads k % U64 }
    else some (handle, k)

/-- Lines 247 to 265: the do-while loop that claims a slot, entered with `old_write_slot`.
The result is the channel state, the claimed logical index and the load count. -/
def acquire_loop (loads : Nat → Nat) :
    Nat → Nat → Nat → ro_net_wg_handle → Option (ro_net_wg_handle × Nat × Nat)
  | 0, _, _, _ => none
  | fuel + 1, k, old_write_slot, handle =>
    let write_slot := old_write_slot
    match poll_while_full loads write_slot (fuel + 1) k handle with
    | none => none
    | some (h1, k1) =>
      let r := atomicCAS h1.write_idx write_slot (succ64 write_slot)
      let h2 := { h1 with write_idx := r.1 }
      if write_slot ≠ r.2 then acquire_loop loads fuel k1 r.2 h2
      else some (h2, write_slot, k1)

/-- Lines 245 to 265: slot acquisition of one call. -/
def acquire_slot (loads : Nat → Nat) (fuel : Nat) (handle : ro_net_wg_handle) :
    Option (ro_net_wg_handle × Nat × Nat) :=
  acquire_loop loads fuel 0 handle.write_idx handle

/-! ### Layout of `queue_element_t`

The `memcpy` of line 278 is not bounded by the size of its destination, so its effect is
given on the bytes of the ring. With 4-byte `int` and enumeration objects, 8-byte pointers,
natural alignment and the structure aligned to 64 bytes (`__aligned__(64)`), the fields lie
at these byte offsets of an element, which occupies 192 bytes: `valid` 0, `type` 64, `PE`
68, `size` 72, `src` 80, `dst` 88, `threadId` 96, `logPE_stride` 100, `PE_size` 104, `pWrk`
112, `pSync` 120, `op` 128, `datatype` 132. Bytes are little-endian, integers two's
complement, `char` is signed. -/

/-- The integer denoted by the low `len` bytes of `n` in two's complement. -/
def to_signed (len n : Nat) : Int :=
  if n % 256 ^ len < 256 ^ len / 2 then ((n % 256 ^ len : Nat) : Int)
  else ((n % 256 ^ len : Nat) : Int) - ((256 ^ len : Nat) : Int)

/-- The `len` bytes that hold the integer `v` in two's complement, as a number. -/
def of_signed (len : Nat) (v : Int) : Nat := (v % ((256 ^ len : Nat) : Int)).toNat

/-- The little-endian value of a field of `len` bytes that starts `off` bytes after the
destination of a copy of `size` bytes from address `src`, the field holding `old` before:
a byte below `size` comes from the source, any other byte is kept. -/
def overlay (mem : Nat → Nat) (src size : Nat) : Nat → Nat → Nat → Nat
  | _, 0, _ => 0
  | off, len + 1, old =>
    (if off < size then mem (src + off) % 256 else old % 256) +
      256 * overlay mem src size (off + 1) len (old / 256)

/-- The copy as seen by an unsigned field (a pointer): untouched when the copy ends before
the field. -/
def copy_nat (mem : Nat → Nat) (src size off len old : Nat) : Nat :=
  if off < size then overlay mem src size off len old else old

/-- The copy as seen by a signed field (`int`, `char`, enumeration). -/
def copy_int (mem : Nat → Nat) (src size off len : Nat) (old : Int) : Int :=
  if off < size then to_signed len (overlay mem src size off len (of_signed len old))
  else old

/-- The copy as seen by the element `d` elements after the one whose `src` field is the
destination. In the element itself (`d = 0`) the fields from `src` on are reached; a later
element starts `192 * d - 80` bytes after the destination. -/
def memcpy_element (mem : Nat → Nat) (src size d : Nat) (e : queue_element) : queue_element :=
  if d = 0 then
    { e with
      src := copy_nat mem src size 0 8 e.src
      dst := copy_nat mem src size 8 8 e.dst
      threadId := copy_int mem src size 16 4 e.threadId
      logPE_stride := copy_int mem src size 20 4 e.logPE_stride
      PE_size := copy_int mem src size 24 4 e.PE_size
      pWrk := copy_nat mem src size 32 8 e.pWrk
      pSync := copy_nat mem src size 40 8 e.pSync
      op := copy_int mem src size 48 4 e.op
      datatype := copy_int mem src size 52 4 e.datatype }
  else
    { valid := copy_int mem src size (192 * d - 80) 1 e.valid
      type := copy_int mem src size (192 * d - 80 + 64) 4 e.type
      PE := copy_int mem src size (192 * d - 80 + 68) 4 e.PE
      size := copy_int mem src size (192 * d - 80 + 72) 4 e.size
      src := copy_nat mem src size (192 * d - 80 + 80) 8 e.src
      dst := copy_nat mem src size (192 * d - 80 + 88) 8 e.dst
      threadId := copy_int mem src size (192 * d - 80 + 96) 4 e.threadId
      logPE_stride := copy_int mem src size (192 * d - 80 + 100) 4 e.logPE_stride
      PE_size := copy_int mem src size (192 * d - 80 + 104) 4 e.PE_size
      pWrk := copy_nat mem src size (192 * d - 80 + 112) 8 e.pWrk
      pSync := copy_nat mem src size (192 * d - 80 + 120) 8 e.pSync
      op := copy_int mem src size (192 * d - 80 + 128) 4 e.op
      datatype := copy_int mem src size (192 * d - 80 + 132) 4 e.datatype }

/-- Line 278, `memcpy(&handle->queue[write_slot].src, src, size)`, on the ring: the elements
before `write_slot` are not reached, the element at `write_slot` and the ones after it are
overwritten as far as the `size` bytes go. An index beyond the capacity stands for the
memory behind the ring, seen through the same layout. -/
def memcpy_ring (mem : Nat → Nat) (src size write_slot : Nat) (queue : Nat → queue_element) :
    Nat → queue_element :=
  fun k => if k < write_slot then queue k
    else memcpy_element mem src size (k - write_slot) (queue k)

/-- The effect of one store on the ring, the physical slot being `write_slot`. -/
def Store.apply (mem : Nat → Nat) (write_slot : Nat) (queue : Nat → queue_element) :
    Store → Nat → queue_element
  | Store.type v => Function.update queue write_slot { queue write_slot with type := v.toInt }
  | Store.PE v => Function.update queue write_slot { queue write_slot with PE := v }
  | Store.size v => Function.update queue write_slot { queue write_slot with size := v }
  | Store.dst v => Function.update queue write_slot { queue write_slot with dst := v }
  | Store.src v => Function.update queue write_slot { queue write_slot with src := v }
  | Store.inline_src p n => memcpy_ring mem p n write_slot queue
  | Store.threadId v =>
    Function.update queue write_slot { queue write_slot with threadId := v }
  | Store.logPE_stride v =>
    Function.update queue write_slot { queue write_slot with logPE_stride := v }
  | Store.PE_size v => Function.update queue write_slot { queue write_slot with PE_size := v }
  | Store.pWrk v => Function.update queue write_slot { queue write_slot with pWrk := v }
  | Store.pSync v => Function.update queue write_slot { queue write_slot with pSync := v }
  | Store.op v => Function.update queue write_slot { queue write_slot with op := v }
  | Store.datatype v =>
    Function.update queue write_slot { queue write_slot with datatype := v }
  | Store.valid v => Function.update queue write_slot { queue write_slot with valid := v }

/-- The ring after a sequence of stores, performed from left to right. -/
def run_stores (mem : Nat → Nat) (write_slot : Nat) (queue : Nat → queue_element)
    (stores : List Store) : Nat → queue_element :=
  stores.foldl (Store.apply mem write_slot) queue

/-- Whether a store writes the `valid` flag. -/
def Store.is_valid : Store → Bool
  | Store.valid _ => true
  | _ => false

/-- Lines 271 to 307: the stores before the first fence, in program order. Inline commands
(`RO_NET_P`) copy the payload into the `src` field, every other kind stores the pointer;
the six collective fields are stored for `RO_NET_TO_ALL` only. -/
def pack_stores (threadId : Int) (type : ro_net_cmds) (dst src size : Nat)
    (pe logPE_stride PE_size : Int) (pWrk pSync : Nat) (op : Int) (datatype : ro_net_types) :
    List Store :=
  [Store.type type, Store.PE pe, Store.size (size_to_int size), Store.dst dst,
   if type = ro_net_cmds.RO_NET_P then Store.inline_src src size else Store.src src,
   Store.threadId threadId] ++
  (if type = ro_net_cmds.RO_NET_TO_ALL then
    [Store.logPE_stride logPE_stride, Store.PE_size PE_size, Store.pWrk pWrk,
     Store.pSync pSync, Store.op op, Store.datatype datatype.toInt]
   else [])

/-- Line 318: the store that publishes the element, after the first fence. -/
def publish_stores : List Store := [Store.valid 1]

/-- Lines 326 to 334: load the status byte until a load returns a non-zero value. `k` counts
the loads done so far; the result is the load count at loop exit. -/
def wait_host (loads : Nat → Int) : Nat → Nat → Option Nat
  | 0, _ => none
  | fuel + 1, k => if loads k = 0 then wait_host loads fuel (k + 1) else some (k + 1)

/-- Lines 233 to 340, `build_queue_element`, run by the thread `threadId`
(`get_flat_block_id()`) against the host behaviour `host`. The result is `none` when a loop
is still running after `fuel` iterations or when `queue_size` is zero (line 270 divides by
it). -/
def build_queue_element (host : Host) (fuel : Nat) (threadId : Int)
    (type : ro_net_cmds) (dst src size : Nat) (pe logPE_stride PE_size : Int)
    (pWrk pSync : Nat) (handle : ro_net_wg_handle) (blocking : Bool)
    (op : Int) (datatype : ro_net_types) : Option Outcome :=
  match acquire_slot host.read_idx fuel handle with
  | none => none
  | some (h1, claimed, k) =>
    if h1.queue_size = 0 then none
    else
      let write_slot := physical_slot claimed h1.queue_size
      let packing := pack_stores threadId type dst src size pe logPE_stride PE_size pWrk
        pSync op datatype
      let h2 := { h1 with queue := run_stores host.mem write_slot h1.queue packing }
      let h3 := { h2 with queue := run_stores host.mem write_slot h2.queue publish_stores }
      if blocking then
        match wait_host host.status fuel 0 with
        | none => none
        | some n =>
          some { handle := { h3 with status := Function.update h3.status threadId 0 },
                 claimed := claimed, read_loads := k, status_loads := n,
                 stores := packing ++ publish_stores }
      else
        some { handle := h3, claimed := claimed, read_loads := k, status_loads := 0,
               stores := packing ++ publish_stores }

/-! ## External device-side API (`ro_net_gpu.cpp`, lines 75 to 221)

`ROC_SHMEM_SUM` (the default of the parameter `op`, declared in `roc_shmem.hpp`) is a
parameter of the functions that rely on the default. -/

/-- Lines 118 to 123, `ROContext::putmem`. -/
def putmem (host : Host) (fuel : Nat) (threadId : Int) (ROC_SHMEM_SUM : Int)
    (dest source nelems : Nat) (pe : Int) (backend_ctx : ro_net_wg_handle) : Option Outcome :=
  build_queue_element host fuel threadId ro_net_cmds.RO_NET_PUT dest source nelems pe 0 0
    0 0 backend_ctx true ROC_SHMEM_SUM ro_net_types.RO_NET_INT

/-- Lines 125 to 130, `ROContext::getmem`. -/
def getmem (host : Host) (fuel : Nat) (threadId : Int) (ROC_SHMEM_SUM : Int)
    (dest source nelems : Nat) (pe : Int) (backend_ctx : ro_net_wg_handle) : Option Outcome :=
  build_queue_element host fuel threadId ro_net_cmds.RO_NET_GET dest source nelems pe 0 0
    0 0 backend_ctx true ROC_SHMEM_SUM ro_net_types.RO_NET_INT

/-- Lines 132 to 137, `ROContext::putmem_nbi`. -/
def putmem_nbi (host : Host) (fuel : Nat) (threadId : Int) (ROC_SHMEM_SUM : Int)
    (dest source nelems : Nat) (pe : Int) (backend_ctx : ro_net_wg_handle) : Option Outcome :=
  build_queue_element host fuel threadId ro_net_cmds.RO_NET_PUT_NBI dest source nelems pe 0
    0 0 0 backend_ctx false ROC_SHMEM_SUM ro_net_types.RO_NET_INT

/-- Lines 139 to 144, `ROContext::getmem_nbi`. -/
def getmem_nbi (host : Host) (fuel : Nat) (threadId : Int) (ROC_SHMEM_SUM : Int)
    (dest source nelems : Nat) (pe : Int) (backend_ctx : ro_net_wg_handle) : Option Outcome :=
  build_queue_element host fuel threadId ro_net_cmds.RO_NET_GET_NBI dest source nelems pe 0
    0 0 0 backend_ctx false ROC_SHMEM_SUM ro_net_types.RO_NET_INT

/-- Lines 146 to 151, `ROContext::fence`. -/
def fence (host : Host) (fuel : Nat) (threadId : Int) (ROC_SHMEM_SUM : Int)
    (backend_ctx : ro_net_wg_handle) : Option Outcome :=
  build_queue_element host fuel threadId ro_net_cmds.RO_NET_FENCE 0 0 0 0 0 0 0
    0 backend_ctx true ROC_SHMEM_SUM ro_net_types.RO_NET_INT

/-- Lines 153 to 158, `ROContext::quiet`. -/
def quiet (host : Host) (fuel : Nat) (threadId : Int) (ROC_SHMEM_SUM : Int)
    (backend_ctx : ro_net_wg_handle) : Option Outcome :=
  build_queue_element host fuel threadId ro_net_cmds.RO_NET_QUIET 0 0 0 0 0 0 0
    0 backend_ctx true ROC_SHMEM_SUM ro_net_types.RO_NET_INT

/-- Lines 160 to 165, `ROContext::barrier_all`. -/
def barrier_all (host : Host) (fuel : Nat) (threadId : Int) (ROC_SHMEM_SUM : Int)
    (backend_ctx : ro_net_wg_handle) : Option Outcome :=
  build_queue_element host fuel threadId ro_net_cmds.RO_NET_BARRIER_ALL 0 0 0 0 0 0
    0 0 backend_ctx true ROC_SHMEM_SUM ro_net_types.RO_NET_INT

/-- Lines 167 to 172, `ROContext::sync_all`. -/
def sync_all (host : Host) (fuel : Nat) (threadId : Int) (ROC_SHMEM_SUM : Int)
    (backend_ctx : ro_net_wg_handle) : Option Outcome :=
  build_queue_element host fuel threadId ro_net_cmds.RO_NET_BARRIER_ALL 0 0 0 0 0 0
    0 0 backend_ctx true ROC_SHMEM_SUM ro_net_types.RO_NET_INT

/-- Lines 75 to 107, the device constructor `ROContext::ROContext`: thread zero of the
block copies the descriptor of channel `buffer_id` field by field into the channel state
`backend_ctx`; the other threads leave it as it is. -/
def ROContext_create (is_thread_zero_in_block : Bool) (buffer_id : Nat)
    (handle : ro_net_handle) (backend_ctx : ro_net_wg_handle) : ro_net_wg_handle :=
  if is_thread_zero_in_block then
    { write_idx := (handle.queue_descs buffer_id).write_idx
      read_idx := (handle.queue_descs buffer_id).read_idx
      status := (handle.queue_descs buffer_id).status
      queue := handle.queues buffer_id
      queue_size := handle.queue_size }
  else backend_ctx

/-- Lines 174 to 195, `ROContext::ctx_destroy`: thread zero of the block posts a blocking
`RO_NET_FINALIZE` and then stores the local write index into the descriptor of channel
`buffer_id`. The result is the global handle and the channel state on return. -/
def ctx_destroy (host : Host) (fuel : Nat) (threadId : Int) (ROC_SHMEM_SUM : Int)
    (is_thread_zero_in_block : Bool) (buffer_id : Nat)
    (handle : ro_net_handle) (backend_ctx : ro_net_wg_handle) :
    Option (ro_net_handle × ro_net_wg_handle) :=
  if is_thread_zero_in_block then
    match build_queue_element host fuel threadId ro_net_cmds.RO_NET_FINALIZE 0 0 0 0 0 0
        0 0 backend_ctx true ROC_SHMEM_SUM ro_net_types.RO_NET_INT with
    | none => none
    | some out =>
      some ({ handle with
              queue_descs := Function.update handle.queue_descs buffer_id
                { handle.queue_descs buffer_id with write_idx := out.handle.write_idx } },
            out.handle)
  else some (handle, backend_ctx)

/-- How a device function ends: it returns a value or the kernel is terminated by a
failed assertion. -/
inductive Termination (α : Type) where
  | returned (value : α)
  | assertion_failed
  deriving DecidableEq, Repr

/-- The C library `assert(cond)`: with `NDEBUG` defined the statement expands to nothing and
`rest` runs; otherwise a false condition terminates the kernel. -/
def c_assert {α : Type} (NDEBUG : Bool) (cond : Bool) (rest : Termination α) :
    Termination α :=
  if NDEBUG then rest else if cond then rest else Termination.assertion_failed

/-- Lines 197 to 202, `ROContext::amo_fetch_cas`. -/
def amo_fetch_cas (NDEBUG : Bool) (dst : Nat) (value cond : Int) (pe : Int) :
    Termination Int :=
  c_assert NDEBUG false (Termination.returned value)

/-- Lines 204 to 208, `ROContext::amo_cas`. -/
def amo_cas (NDEBUG : Bool) (dst : Nat) (value cond : Int) (pe : Int) : Termination Unit :=
  c_assert NDEBUG false (Termination.returned ())

/-- Lines 210 to 215, `ROContext::amo_fetch_add`. -/
def amo_fetch_add (NDEBUG : Bool) (dst : Nat) (value cond : Int) (pe : Int) :
    Termination Int :=
  c_assert NDEBUG false (Termination.returned value)

/-- Lines 217 to 221, `ROContext::amo_add`. -/
def amo_add (NDEBUG : Bool) (dst : Nat) (value cond : Int) (pe : Int) : Termination Unit :=
  c_assert NDEBUG false (Termination.returned ())

/-! ## The channel as seen by the claim of bounded occupancy

The four numbers of a channel: the local write and read index and the capacity (in
`ro_net_wg_handle`) and the read index in the shared descriptor. -/

/-- A channel: the work-group state and the read index of the shared descriptor. -/
structure Channel where
  handle : ro_net_wg_handle
  host_read_idx : Nat

/-- One successful slot claim of `build_queue_element` (lines 245 to 265) run without
interruption: the loads through `host_read_idx` return the descriptor's read index. -/
def ProducerStep (s s' : Channel) : Prop :=
  ∃ fuel h claimed k,
    acquire_slot (fun _ => s.host_read_idx) fuel s.handle = some (h, claimed, k) ∧
    s' = { s with handle := h }

/-- Modelled from the spec: the Host Drain Agent, which is not part of the device sources.
It advances the read index of the descriptor by one, and only while that index has not
caught up with the write index. On the 64-bit counters this is the cyclic reading of
"below the write index"; a read index that is smaller than the write index satisfies it. -/
def ConsumerStep (s s' : Channel) : Prop :=
  s.host_read_idx ≠ s.handle.write_idx ∧
  s' = { s with host_read_idx := succ64 s.host_read_idx }

/-- States reachable from `s0` by producer and consumer steps in any order. -/
inductive Reachable (s0 : Channel) : Channel → Prop where
  | start : Reachable s0 s0
  | producer {s s' : Channel} : Reachable s0 s → ProducerStep s s' → Reachable s0 s'
  | consumer {s s' : Channel} : Reachable s0 s → ConsumerStep s s' → Reachable s0 s'

/-! ## Slot acquisition under interleaving

Lines 245 to 265 of `build_queue_element`, one transition per access to memory shared
between the threads of a work-group (`handle->write_idx`, `handle->read_idx`) or with the
host (`*handle->host_read_idx`). The channel state `handle` is one object per work-group
(the device constructor places it in dynamic shared memory, lines 84 and 85), so all
threads of the group read and write the same `write_idx` and `read_idx`. -/

/-- Program points of a thread inside `build_queue_element`.
* `entry`: before line 245, the read of `handle->write_idx`.
* `loop_head`: line 248, `write_slot = old_write_slot`.
* `full_check`: line 252, the test `isFull(handle->read_idx, write_slot, queue_size)`.
* `load_host`: line 254, the `global_load_dwordx2` through `host_read_idx` into a vector
  register (the output operand of the asm statement has the register constraint `=v`).
* `store_read`: lines 256 and 257, the store of that register to the output lvalue
  `handle->read_idx`, which the compiler places after the asm statement.
* `cas`: line 263, the `atomicCAS` on `handle->write_idx`, with the loop test of line 265.
* `claimed`: line 267, the loop is left and `write_slot` is the claimed logical index. -/
inductive PC where
  | entry
  | loop_head
  | full_check
  | load_host
  | store_read
  | cas
  | claimed
  deriving DecidableEq, Repr

/-- The locals of one thread: program point, `old_write_slot`, `write_slot` and the vector
register that receives the host read index. -/
structure Thread where
  pc : PC
  old_write_slot : Nat
  write_slot : Nat
  reg : Nat
  deriving DecidableEq, Repr

/-- Observable events, kept in a history variable that no transition reads: a successful
compare-and-swap of thread `tid` returning the logical index `idx`, a full check of
thread `tid` that found the ring full, and the drain of the logical index `idx`. -/
inductive Event where
  | claim (tid idx : Nat)
  | full (tid : Nat)
  | drain (idx : Nat)
  deriving DecidableEq, Repr

/-- The shared state: the three indices and the capacity, the locals of every thread, and
the history of events. -/
structure Sys where
  write_idx : Nat
  read_idx : Nat
  queue_size : Nat
  host_read_idx : Nat
  thr : Nat → Thread
  log : List Event

/-- A scheduling decision: thread `i` performs its next access, or the consumer drains
one element. -/
inductive Action where
  | thread (i : Nat)
  | drain
  deriving DecidableEq, Repr

/-- A thread about to call `build_queue_element`. -/
def Thread.fresh : Thread := { pc := PC.entry, old_write_slot := 0, write_slot := 0, reg := 0 }

/-- One transition. The consumer step is modelled from the spec (see `ConsumerStep`). -/
def step (s : Sys) : Action → Sys
  | Action.drain =>
    if s.host_read_idx ≠ s.write_idx then
      { s with host_read_idx := succ64 s.host_read_idx,
               log := s.log ++ [Event.drain s.host_read_idx] }
    else s
  | Action.thread i =>
    let t := s.thr i
    match t.pc with
    | PC.entry =>
      { s with thr := Function.update s.thr i
                        { t with old_write_slot := s.write_idx, pc := PC.loop_head } }
    | PC.loop_head =>
      { s with thr := Function.update s.thr i
                        { t with write_slot := t.old_write_slot, pc := PC.full_check } }
    | PC.full_check =>
      if isFull s.read_idx t.write_slot s.queue_size then
        { s with thr := Function.update s.thr i { t with pc := PC.load_host },
                 log := s.log ++ [Event.full i] }
      else { s with thr := Function.update s.thr i { t with pc := PC.cas } }
    | PC.load_host =>
      { s with thr := Function.update s.thr i
                        { t with reg := s.host_read_idx, pc := PC.store_read } }
    | PC.store_read =>
      { s with read_idx := t.reg,
               thr := Function.update s.thr i { t with pc := PC.full_check } }
    | PC.cas =>
      let r := atomicCAS s.write_idx t.write_slot (succ64 t.write_slot)
      if t.write_slot ≠ r.2 then
        { s with write_idx := r.1,
                 thr := Function.update s.thr i
                   { t with old_write_slot := r.2, pc := PC.loop_head } }
      else
        { s with write_idx := r.1,
                 thr := Function.update s.thr i
                   { t with old_write_slot := r.2, pc := PC.claimed },
                 log := s.log ++ [Event.claim i t.write_slot] }
    | PC.claimed => s

/-- The state after a schedule. -/
def run (s : Sys) : List Action → Sys
  | [] => s
  | a :: rest => run (step s a) rest

/-- A channel of capacity `c` right after creation from a zeroed descriptor, every thread
about to submit. -/
def Sys.init (c : Nat) : Sys :=
  { write_idx := 0, read_idx := 0, queue_size := c, host_read_idx := 0,
    thr := fun _ => Thread.fresh, log := [] }

/-- The logical indices claimed so far, in the order of the successful compare-and-swaps. -/
def claims : List Event → List Nat
  | [] => []
  | Event.claim _ idx :: rest => idx :: claims rest
  | _ :: rest => claims rest

/-- The number of full checks that found the ring full. -/
def full_count : List Event → Nat
  | [] => 0
  | Event.full _ :: rest => full_count rest + 1
  | _ :: rest => full_count rest

/-- The logical indices drained so far. -/
def drains : List Event → List Nat
  | [] => []
  | Event.drain idx :: rest => idx :: drains rest
  | _ :: rest => drains rest

/-- The schedule of the stale-store race on a ring of capacity 2. Threads 0 and 1 fill
the ring. Thread 2 finds it full and loads the host read index after one drain (value 1).
After a second drain thread 3 refreshes the local read index to 2 and claims index 2,
thread 4 claims index 3. Thread 2 then stores its register (1) over the newer local read
index, passes the full check twice and claims index 4. -/
def race_schedule : List Action :=
  List.replicate 4 (Action.thread 0) ++ List.replicate 4 (Action.thread 1) ++
  List.replicate 3 (Action.thread 2) ++ [Action.drain, Action.thread 2, Action.drain] ++
  List.replicate 7 (Action.thread 3) ++ List.replicate 4 (Action.thread 4) ++
  List.replicate 6 (Action.thread 2)

/-- A ring of capacity `c` in which nothing has been written yet: every field zero. -/
def ro_net_wg_handle.zeroed (c : Nat) : ro_net_wg_handle :=
  { queue := fun _ =>
      { valid := 0, type := 0, PE := 0, size := 0, src := 0, dst := 0,
        threadId := 0, logPE_stride := 0, PE_size := 0, pWrk := 0, pSync := 0, op := 0,
        datatype := 0 }
    read_idx := 0, write_idx := 0, queue_size := c, status := fun _ => 0 }

/-- A host that has drained nothing and answers every blocking command at the first poll;
device memory holds zero bytes. -/
def Host.prompt : Host :=
  { read_idx := fun _ => 0, status := fun _ => 1, mem := fun _ => 0 }

/-- A channel of capacity 4 whose local read index (0) lags behind the descriptor's read
index (1) while the write index is 5: four elements are undrained. -/
def lagging_channel : Channel :=
  { handle := { ro_net_wg_handle.zeroed 4 with write_idx := 5 }, host_read_idx := 1 }

/-- The element at the claimed slot of `out` holds a published command of kind `type` with
the fields `dst`, `src`, `pe` and the size `nelems` as converted to the `int` field, and the
call waited for a non-zero completion status and reset it (`blocking`) or did not touch the
status array (not `blocking`). `before` is the channel state at the call. -/
def Posted (host : Host) (threadId : Int) (before : ro_net_wg_handle) (out : Outcome)
    (type : ro_net_cmds) (dst src nelems : Nat) (pe : Int) (blocking : Bool) : Prop :=
  out.claimed = before.write_idx ∧
  (out.handle.queue (physical_slot out.claimed before.queue_size)).type = type.toInt ∧
  (out.handle.queue (physical_slot out.claimed before.queue_size)).dst = dst ∧
  (out.handle.queue (physical_slot out.claimed before.queue_size)).src = src ∧
  (out.handle.queue (physical_slot out.claimed before.queue_size)).size = size_to_int nelems ∧
  (out.handle.queue (physical_slot out.claimed before.queue_size)).PE = pe ∧
  (out.handle.queue (physical_slot out.claimed before.queue_size)).valid = 1 ∧
  (blocking = true →
    0 < out.status_loads ∧ host.status (out.status_loads - 1) ≠ 0 ∧
    out.handle.status threadId = 0) ∧
  (blocking = false → out.status_loads = 0 ∧ out.handle.status = before.status)

/-- The inductive invariant behind bounded occupancy, on the 64-bit counters: going forward
from the local read index one meets the descriptor's read index and then the write index
within `queue_size` steps. -/
def OccupancyInv (s : Channel) : Prop :=
  sub64 s.host_read_idx s.handle.read_idx + sub64 s.handle.write_idx s.host_read_idx
    ≤ s.handle.queue_size ∧
  s.handle.queue_size < U64 ∧ s.handle.read_idx < U64 ∧ s.host_read_idx < U64 ∧
  s.handle.write_idx < U64

/-- A global handle whose descriptors and rings are all zero, with capacity `c`. -/
def ro_net_handle.zeroed (c : Nat) : ro_net_handle :=
  { queues := fun _ => (ro_net_wg_handle.zeroed c).queue
    queue_descs := fun _ => { read_idx := 0, write_idx := 0, status := fun _ => 0 }
    queue_size := c }

/-- A channel of capacity `c` right after creation from a zeroed descriptor. -/
def Channel.fresh (c : Nat) : Channel :=
  { handle := ro_net_wg_handle.zeroed c, host_read_idx := 0 }

/-- Thread `i` has not left the full-check loop since it entered `build_queue_element` in a
state with write index `w` and local read index `r`: it is before the load of the write
index, or it holds `w` as candidate and is at the loop head, at the full check, at the load
of the host read index, or at the store of a register that still holds `r`. -/
def Spinning (w r : Nat) (t : Thread) : Prop :=
  t.pc = PC.entry ∨ (t.pc = PC.loop_head ∧ t.old_write_slot = w) ∨
  (t.pc = PC.full_check ∧ t.write_slot = w) ∨ (t.pc = PC.load_host ∧ t.write_slot = w) ∨
  (t.pc = PC.store_read ∧ t.write_slot = w ∧ t.reg = r)

/-- The ring of capacity 2 of the blocking scenario: write index 2, no element drained, every
thread about to submit. -/
def full_ring : Sys := { Sys.init 2 with write_idx := 2 }

/-- The threads whose compare-and-swap has succeeded so far, in that order. -/
def claimers : List Event → List Nat
  | [] => []
  | Event.claim tid _ :: rest => tid :: claimers rest
  | _ :: rest => claimers rest

/-- The invariant of `n` submissions into an empty ring of capacity `c` that nobody drains:
nothing was read from the host, the indices claimed so far are `0, 1, ...` up to the write
index, no full check found the ring full, each thread with a successful compare-and-swap
is one of the `n` threads and has claimed once, and the candidate index of a thread that is
still in the loop is not ahead of the write index. -/
def NoDrainInv (c n : Nat) (s : Sys) : Prop :=
  s.queue_size = c ∧ s.read_idx = 0 ∧ s.host_read_idx = 0 ∧
  claims s.log = List.range s.write_idx ∧
  full_count s.log = 0 ∧
  (claimers s.log).length = s.write_idx ∧
  (claimers s.log).Nodup ∧
  (∀ i, i ∈ claimers s.log ↔ (s.thr i).pc = PC.claimed) ∧
  (∀ i, i ∈ claimers s.log → i < n) ∧
  (∀ i, ((s.thr i).pc = PC.loop_head → (s.thr i).old_write_slot ≤ s.write_idx) ∧
        ((s.thr i).pc = PC.full_check → (s.thr i).write_slot ≤ s.write_idx) ∧
        ((s.thr i).pc = PC.cas → (s.thr i).write_slot ≤ s.write_idx) ∧
        (s.thr i).pc ≠ PC.load_host ∧ (s.thr i).pc ≠ PC.store_read)

/-- An upper bound on the number of steps a thread still needs to claim a slot when it runs
alone and never finds the ring full; `w` is the current write index. -/
def steps_left (w : Nat) (t : Thread) : Nat :=
  match t.pc with
  | PC.entry => 4
  | PC.loop_head => if t.old_write_slot = w then 3 else 6
  | PC.full_check => if t.write_slot = w then 2 else 5
  | PC.cas => if t.write_slot = w then 1 else 4
  | PC.claimed => 0
  | PC.load_host => 0
  | PC.store_read => 0

/-- A schedule of four concurrent submissions: the threads 0 to 3 take turns, one access
each, for thirteen rounds; in every fourth round one compare-and-swap succeeds and the
others fail and retry. -/
def round_robin_schedule : List Action :=
  (List.replicate 13
    [Action.thread 0, Action.thread 1, Action.thread 2, Action.thread 3]).flatten

/-! ## Lemmas on the machine arithmetic -/

theorem sub64_of_le {a b : Nat} (hab : b ≤ a) (ha : a < U64) : sub64 a b = a - b := by
  simp only [sub64, U64] at *
  omega

theorem sub64_self_eq_zero (a : Nat) : sub64 a a = 0 := by
  simp only [sub64, U64]
  omega

theorem sub64_lt (a b : Nat) : sub64 a b < U64 := by
  simp only [sub64, U64]
  omega

theorem isFull_eq_true_iff {r w q : Nat} (hq : q < U64) :
    isFull r w q = true ↔ sub64 w r = q := by
  have hlt := sub64_lt w r
  unfold isFull
  rw [beq_iff_eq]
  generalize sub64 w r = d at hlt
  simp only [sub64, U64] at *
  omega

theorem isFull_eq_false_iff {r w q : Nat} (hq : q < U64) :
    isFull r w q = false ↔ sub64 w r ≠ q := by
  rw [Ne, ← isFull_eq_true_iff hq]
  cases isFull r w q <;> simp

/-! ## Lemmas on `build_queue_element` -/

theorem poll_while_full_some {loads : Nat → Nat} {ws : Nat} :
    ∀ (fuel k : Nat) (h h' : ro_net_wg_handle) (k' : Nat),
      poll_while_full loads ws fuel k h = some (h', k') →
      h' = { h with read_idx := h'.read_idx } ∧
      isFull h'.read_idx ws h.queue_size = false ∧
      ((k' = k ∧ h'.read_idx = h.read_idx) ∨ (k < k' ∧ h'.read_idx = loads (k' - 1) % U64)) := by
  intro fuel
  induction fuel with
  | zero => intro k h h' k' hp; simp [poll_while_full] at hp
  | succ fuel ih =>
    intro k h h' k' hp
    unfold poll_while_full at hp
    by_cases hf : isFull h.read_idx ws h.queue_size = true
    · rw [if_pos hf] at hp
      obtain ⟨h1, h2, h3⟩ := ih _ _ _ _ hp
      refine ⟨?_, h2, Or.inr ?_⟩
      · rw [h1]
      · rcases h3 with ⟨e1, e2⟩ | ⟨e1, e2⟩
        · subst e1
          exact ⟨Nat.lt_succ_self k, by simpa using e2⟩
        · exact ⟨by omega, e2⟩
    · rw [if_neg hf] at hp
      simp only [Option.some.injEq, Prod.mk.injEq] at hp
      obtain ⟨e1, e2⟩ := hp
      subst e1 e2
      exact ⟨rfl, by simpa using hf, Or.inl ⟨rfl, rfl⟩⟩

theorem acquire_slot_some {loads : Nat → Nat} {fuel : Nat} {h h' : ro_net_wg_handle}
    {c k : Nat} (ha : acquire_slot loads fuel h = some (h', c, k)) :
    c = h.write_idx ∧
    h' = { h with read_idx := h'.read_idx, write_idx := succ64 h.write_idx } ∧
    isFull h'.read_idx h.write_idx h.queue_size = false ∧
    ((k = 0 ∧ h'.read_idx = h.read_idx) ∨ (0 < k ∧ h'.read_idx = loads (k - 1) % U64)) := by
  unfold acquire_slot at ha
  cases fuel with
  | zero => simp [acquire_loop] at ha
  | succ fuel =>
    unfold acquire_loop at ha
    simp only at ha
    split at ha
    · exact absurd ha (by simp)
    · rename_i h1 k1 hp
      obtain ⟨e1, e2, e3⟩ := poll_while_full_some _ _ _ _ _ hp
      have hw : h1.write_idx = h.write_idx := by rw [e1]
      simp only [atomicCAS, hw, if_true, ne_eq, not_true_eq_false, if_false,
        Option.some.injEq, Prod.mk.injEq] at ha
      obtain ⟨a1, a2, a3⟩ := ha
      subst a1 a2 a3
      refine ⟨rfl, ?_, e2, ?_⟩
      · conv_lhs => rw [e1]
      · simpa using e3

theorem wait_host_some {loads : Nat → Int} :
    ∀ (fuel k n : Nat), wait_host loads fuel k = some n →
      k < n ∧ loads (n - 1) ≠ 0 ∧ ∀ j, k ≤ j → j < n - 1 → loads j = 0 := by
  intro fuel
  induction fuel with
  | zero => intro k n hw; simp [wait_host] at hw
  | succ fuel ih =>
    intro k n hw
    unfold wait_host at hw
    by_cases hz : loads k = 0
    · rw [if_pos hz] at hw
      obtain ⟨h1, h2, h3⟩ := ih _ _ hw
      refine ⟨by omega, h2, ?_⟩
      intro j hkj hjn
      rcases Nat.eq_or_lt_of_le hkj with e | e
      · rw [← e]; exact hz
      · exact h3 j e hjn
    · rw [if_neg hz] at hw
      simp only [Option.some.injEq] at hw
      subst hw
      refine ⟨Nat.lt_succ_self k, by simpa using hz, ?_⟩
      intro j hkj hjn
      simp only [Nat.add_sub_cancel] at hjn
      omega

theorem wait_host_returns {loads : Nat → Int} :
    ∀ (fuel k n : Nat), k ≤ n → n < k + fuel → loads n ≠ 0 →
      ∃ m, wait_host loads fuel k = some m := by
  intro fuel
  induction fuel with
  | zero => intro k n h1 h2; omega
  | succ fuel ih =>
    intro k n h1 h2 h3
    unfold wait_host
    by_cases hz : loads k = 0
    · rw [if_pos hz]
      have hne : k ≠ n := fun e => h3 (e ▸ hz)
      exact ih (k + 1) n (by omega) (by omega) h3
    · rw [if_neg hz]
      exact ⟨_, rfl⟩

theorem copy_nat_of_le {mem : Nat → Nat} {src size off : Nat} (len old : Nat)
    (h : size ≤ off) : copy_nat mem src size off len old = old := by
  unfold copy_nat
  rw [if_neg (by omega)]

theorem copy_int_of_le {mem : Nat → Nat} {src size off : Nat} (len : Nat) (old : Int)
    (h : size ≤ off) : copy_int mem src size off len old = old := by
  unfold copy_int
  rw [if_neg (by omega)]

theorem memcpy_element_far (mem : Nat → Nat) (src size d : Nat) (e : queue_element)
    (hd : d ≠ 0) (h : size ≤ 192 * d - 80) : memcpy_element mem src size d e = e := by
  unfold memcpy_element
  rw [if_neg hd]
  have c1 : ∀ o len old, copy_nat mem src size (192 * d - 80 + o) len old = old :=
    fun o len old => copy_nat_of_le len old (by omega)
  have c2 : ∀ o len old, copy_int mem src size (192 * d - 80 + o) len old = old :=
    fun o len old => copy_int_of_le len old (by omega)
  simp only [c1, c2, copy_int_of_le 1 e.valid h]

theorem memcpy_element_zero_small (mem : Nat → Nat) (src size : Nat) (e : queue_element)
    (h : size ≤ 8) :
    memcpy_element mem src size 0 e = { e with src := copy_nat mem src size 0 8 e.src } := by
  unfold memcpy_element
  rw [if_pos rfl]
  simp only [copy_nat_of_le 8 e.dst (show size ≤ 8 by omega),
    copy_int_of_le 4 e.threadId (show size ≤ 16 by omega),
    copy_int_of_le 4 e.logPE_stride (show size ≤ 20 by omega),
    copy_int_of_le 4 e.PE_size (show size ≤ 24 by omega),
    copy_nat_of_le 8 e.pWrk (show size ≤ 32 by omega),
    copy_nat_of_le 8 e.pSync (show size ≤ 40 by omega),
    copy_int_of_le 4 e.op (show size ≤ 48 by omega),
    copy_int_of_le 4 e.datatype (show size ≤ 52 by omega)]

/-- A copy of at most eight bytes stays inside the `src` field of the element at
`write_slot`. -/
theorem memcpy_ring_small (mem : Nat → Nat) (src size write_slot : Nat)
    (queue : Nat → queue_element) (h : size ≤ 8) :
    memcpy_ring mem src size write_slot queue =
      Function.update queue write_slot
        { queue write_slot with src := copy_nat mem src size 0 8 (queue write_slot).src } := by
  funext k
  unfold memcpy_ring
  by_cases hk : k < write_slot
  · rw [if_pos hk, Function.update_noteq (Nat.ne_of_lt hk)]
  · rw [if_neg hk]
    by_cases he : k = write_slot
    · subst he
      rw [Nat.sub_self, Function.update_same]
      exact memcpy_element_zero_small mem src size _ h
    · rw [Function.update_noteq he]
      exact memcpy_element_far mem src size _ _ (by omega) (by omega)

/-- The stores before the first fence do not write `valid`. -/
theorem pack_stores_not_valid (threadId : Int) (type : ro_net_cmds) (dst src size : Nat)
    (pe logPE_stride PE_size : Int) (pWrk pSync : Nat) (op : Int) (datatype : ro_net_types) :
    ∀ st ∈ pack_stores threadId type dst src size pe logPE_stride PE_size pWrk pSync op
      datatype, st.is_valid = false := by
  cases type <;> simp [pack_stores, Store.is_valid]

theorem run_stores_append (mem : Nat → Nat) (write_slot : Nat) (queue : Nat → queue_element)
    (a b : List Store) :
    run_stores mem write_slot queue (a ++ b) =
      run_stores mem write_slot (run_stores mem write_slot queue a) b := by
  unfold run_stores
  rw [List.foldl_append]

theorem apply_valid_unchanged (mem : Nat → Nat) (write_slot : Nat)
    (queue : Nat → queue_element) (st : Store) (h : st.is_valid = false) :
    (Store.apply mem write_slot queue st write_slot).valid = (queue write_slot).valid := by
  cases st with
  | valid v => simp [Store.is_valid] at h
  | _ => simp [Store.apply, memcpy_ring, memcpy_element]

/-- Stores that do not write `valid` leave the flag of the element at `write_slot` as it
was, whatever they are. -/
theorem run_stores_valid_unchanged (mem : Nat → Nat) (write_slot : Nat) (stores : List Store) :
    ∀ queue : Nat → queue_element, (∀ st ∈ stores, st.is_valid = false) →
      (run_stores mem write_slot queue stores write_slot).valid = (queue write_slot).valid := by
  induction stores with
  | nil => intro queue _; rfl
  | cons st rest ih =>
    intro queue h
    have h1 := ih (Store.apply mem write_slot queue st)
      (fun x hx => h x (List.mem_cons_of_mem _ hx))
    have h2 := apply_valid_unchanged mem write_slot queue st (h st (List.mem_cons_self _ _))
    unfold run_stores at h1 ⊢
    rw [List.foldl_cons, h1, h2]

theorem run_publish (mem : Nat → Nat) (write_slot : Nat) (queue : Nat → queue_element) :
    run_stores mem write_slot queue publish_stores =
      Function.update queue write_slot { queue write_slot with valid := 1 } := by
  simp [run_stores, publish_stores, Store.apply]

/-- The ring after the packing stores of a call whose inline payload, if any, fits the `src`
field: only the element at `write_slot` has changed, and it holds the stored values. -/
theorem run_pack (mem : Nat → Nat) (threadId : Int) (type : ro_net_cmds) (dst src size : Nat)
    (pe logPE_stride PE_size : Int) (pWrk pSync : Nat) (op : Int) (datatype : ro_net_types)
    (write_slot : Nat) (queue : Nat → queue_element)
    (hfit : type = ro_net_cmds.RO_NET_P → size ≤ 8) :
    run_stores mem write_slot queue
        (pack_stores threadId type dst src size pe logPE_stride PE_size pWrk pSync op datatype)
      = Function.update queue write_slot
        { valid := (queue write_slot).valid
          type := type.toInt
          PE := pe
          size := size_to_int size
          src := if type = ro_net_cmds.RO_NET_P then
              copy_nat mem src size 0 8 (queue write_slot).src else src
          dst := dst
          threadId := threadId
          logPE_stride := if type = ro_net_cmds.RO_NET_TO_ALL then logPE_stride
            else (queue write_slot).logPE_stride
          PE_size := if type = ro_net_cmds.RO_NET_TO_ALL then PE_size
            else (queue write_slot).PE_size
          pWrk := if type = ro_net_cmds.RO_NET_TO_ALL then pWrk else (queue write_slot).pWrk
          pSync := if type = ro_net_cmds.RO_NET_TO_ALL then pSync else (queue write_slot).pSync
          op := if type = ro_net_cmds.RO_NET_TO_ALL then op else (queue write_slot).op
          datatype := if type = ro_net_cmds.RO_NET_TO_ALL then datatype.toInt
            else (queue write_slot).datatype } := by
  by_cases hP : type = ro_net_cmds.RO_NET_P
  · subst hP
    simp [run_stores, pack_stores, Store.apply, memcpy_ring_small _ _ _ _ _ (hfit rfl)]
  · cases type <;> first
      | exact absurd rfl hP
      | simp [run_stores, pack_stores, Store.apply]

/-- What the packing stores leave in the element at `write_slot` and before it whatever the
size of an inline payload: the fields in front of `src` and the thread id hold the stored
values, `valid` is untouched, and no element before `write_slot` has changed. -/
theorem run_pack_head (mem : Nat → Nat) (threadId : Int) (type : ro_net_cmds)
    (dst src size : Nat) (pe logPE_stride PE_size : Int) (pWrk pSync : Nat) (op : Int)
    (datatype : ro_net_types) (write_slot : Nat) (queue : Nat → queue_element) :
    (run_stores mem write_slot queue (pack_stores threadId type dst src size pe logPE_stride
        PE_size pWrk pSync op datatype) write_slot).valid = (queue write_slot).valid ∧
    (run_stores mem write_slot queue (pack_stores threadId type dst src size pe logPE_stride
        PE_size pWrk pSync op datatype) write_slot).type = type.toInt ∧
    (run_stores mem write_slot queue (pack_stores threadId type dst src size pe logPE_stride
        PE_size pWrk pSync op datatype) write_slot).PE = pe ∧
    (run_stores mem write_slot queue (pack_stores threadId type dst src size pe logPE_stride
        PE_size pWrk pSync op datatype) write_slot).size = size_to_int size ∧
    (run_stores mem write_slot queue (pack_stores threadId type dst src size pe logPE_stride
        PE_size pWrk pSync op datatype) write_slot).threadId = threadId ∧
    ∀ k, k < write_slot →
      run_stores mem write_slot queue (pack_stores threadId type dst src size pe logPE_stride
        PE_size pWrk pSync op datatype) k = queue k := by
  by_cases hP : type = ro_net_cmds.RO_NET_P
  · subst hP
    refine ⟨?_, ?_, ?_, ?_, ?_, ?_⟩ <;>
      simp [run_stores, pack_stores, Store.apply, memcpy_ring, memcpy_element]
    intro k hk
    simp [Function.update_noteq (Nat.ne_of_lt hk), hk, memcpy_ring]
  · rw [run_pack mem threadId type dst src size pe logPE_stride PE_size pWrk pSync op
      datatype write_slot queue (fun h => absurd h hP)]
    refine ⟨by simp, by simp, by simp, by simp, by simp, ?_⟩
    intro k hk
    simp [Function.update_noteq (Nat.ne_of_lt hk)]

theorem build_queue_element_some {host : Host} {fuel : Nat} {threadId : Int}
    {type : ro_net_cmds} {dst src size : Nat} {pe logPE_stride PE_size : Int}
    {pWrk pSync : Nat} {handle : ro_net_wg_handle} {blocking : Bool} {op : Int}
    {datatype : ro_net_types} {out : Outcome}
    (hb : build_queue_element host fuel threadId type dst src size pe logPE_stride PE_size
      pWrk pSync handle blocking op datatype = some out) :
    isFull out.handle.read_idx handle.write_idx handle.queue_size = false ∧
    ((out.read_loads = 0 ∧ out.handle.read_idx = handle.read_idx) ∨
      (0 < out.read_loads ∧
        out.handle.read_idx = host.read_idx (out.read_loads - 1) % U64)) ∧
    0 < handle.queue_size ∧
    out.claimed = handle.write_idx ∧
    out.stores = pack_stores threadId type dst src size pe logPE_stride PE_size pWrk pSync
      op datatype ++ publish_stores ∧
    out.handle.queue =
      run_stores host.mem (physical_slot handle.write_idx handle.queue_size) handle.queue
        out.stores ∧
    out.handle.write_idx = succ64 handle.write_idx ∧
    out.handle.queue_size = handle.queue_size ∧
    (blocking = true →
      wait_host host.status fuel 0 = some out.status_loads ∧
      out.handle.status = Function.update handle.status threadId 0) ∧
    (blocking = false → out.status_loads = 0 ∧ out.handle.status = handle.status) := by
  unfold build_queue_element at hb
  split at hb
  · exact absurd hb (by simp)
  · rename_i h1 c k ha
    obtain ⟨a1, a2, a3, a4⟩ := acquire_slot_some ha
    subst a1
    have hq : h1.queue_size = handle.queue_size := by rw [a2]
    have hqu : h1.queue = handle.queue := by rw [a2]
    have hst : h1.status = handle.status := by rw [a2]
    have hwi : h1.write_idx = succ64 handle.write_idx := by rw [a2]
    by_cases hz : h1.queue_size = 0
    · rw [if_pos hz] at hb
      exact absurd hb (by simp)
    · rw [if_neg hz] at hb
      simp only at hb
      cases blocking with
      | false =>
        simp only [Bool.false_eq_true, if_false, Option.some.injEq] at hb
        subst hb
        refine ⟨a3, a4, by omega, rfl, rfl, ?_, hwi, hq, by simp, ?_⟩
        · simp only [run_stores_append]
          rw [hq, hqu]
        · intro _
          exact ⟨rfl, hst⟩
      | true =>
        simp only [if_true] at hb
        split at hb
        · exact absurd hb (by simp)
        · rename_i n hn
          simp only [Option.some.injEq] at hb
          subst hb
          refine ⟨a3, a4, by omega, rfl, rfl, ?_, hwi, hq, ?_, by simp⟩
          · simp only [run_stores_append]
            rw [hq, hqu]
          · intro _
            exact ⟨hn, by rw [hst]⟩

theorem build_queue_element_returns (host : Host) (fuel : Nat) (threadId : Int)
    (type : ro_net_cmds) (dst src size : Nat) (pe logPE_stride PE_size : Int)
    (pWrk pSync : Nat) (handle : ro_net_wg_handle) (blocking : Bool) (op : Int)
    (datatype : ro_net_types)
    (hroom : isFull handle.read_idx handle.write_idx handle.queue_size = false)
    (hcap : 0 < handle.queue_size)
    (hhost : blocking = true → ∃ n, n < fuel ∧ host.status n ≠ 0)
    (hfuel : 0 < fuel) :
    ∃ out, build_queue_element host fuel threadId type dst src size pe logPE_stride PE_size
      pWrk pSync handle blocking op datatype = some out := by
  obtain ⟨f, rfl⟩ : ∃ f, fuel = f + 1 := ⟨fuel - 1, by omega⟩
  have hacq : acquire_slot host.read_idx (f + 1) handle =
      some ({ handle with write_idx := succ64 handle.write_idx }, handle.write_idx, 0) := by
    simp [acquire_slot, acquire_loop, poll_while_full, hroom, atomicCAS]
  unfold build_queue_element
  rw [hacq]
  simp only
  rw [if_neg (by omega)]
  cases blocking with
  | false => exact ⟨_, rfl⟩
  | true =>
    obtain ⟨n, hn1, hn2⟩ := hhost rfl
    obtain ⟨m, hm⟩ := wait_host_returns (f + 1) 0 n (Nat.zero_le n) (by omega) hn2
    simp only [if_true]
    rw [hm]
    exact ⟨_, rfl⟩

theorem size_to_int_spec (size : Nat) :
    -2147483648 ≤ size_to_int size ∧ size_to_int size < 2147483648 ∧
    (size_to_int size - (size : Int)) % 4294967296 = 0 ∧
    (size_to_int size = (size : Int) ↔ size < 2147483648) := by
  unfold size_to_int
  split <;> omega

/-- The ring on return: the ring after the packing stores with `valid` of the element at the
physical slot set to 1. -/
theorem build_queue_element_ring {host : Host} {fuel : Nat} {threadId : Int}
    {type : ro_net_cmds} {dst src size : Nat} {pe logPE_stride PE_size : Int}
    {pWrk pSync : Nat} {handle : ro_net_wg_handle} {blocking : Bool} {op : Int}
    {datatype : ro_net_types} {out : Outcome}
    (hb : build_queue_element host fuel threadId type dst src size pe logPE_stride PE_size
      pWrk pSync handle blocking op datatype = some out) :
    out.handle.queue =
      Function.update
        (run_stores host.mem (physical_slot handle.write_idx handle.queue_size) handle.queue
          (pack_stores threadId type dst src size pe logPE_stride PE_size pWrk pSync op
            datatype))
        (physical_slot handle.write_idx handle.queue_size)
        { run_stores host.mem (physical_slot handle.write_idx handle.queue_size) handle.queue
            (pack_stores threadId type dst src size pe logPE_stride PE_size pWrk pSync op
              datatype) (physical_slot handle.write_idx handle.queue_size) with valid := 1 } := by
  obtain ⟨-, -, -, -, hs, hq, -⟩ := build_queue_element_some hb
  rw [hq, hs, run_stores_append, run_publish]

theorem posted_of_some {host : Host} {fuel : Nat} {threadId : Int}
    {type : ro_net_cmds} {dst src size : Nat} {pe logPE_stride PE_size : Int}
    {pWrk pSync : Nat} {handle : ro_net_wg_handle} {blocking : Bool} {op : Int}
    {datatype : ro_net_types} {out : Outcome}
    (hP : type ≠ ro_net_cmds.RO_NET_P)
    (hb : build_queue_element host fuel threadId type dst src size pe logPE_stride PE_size
      pWrk pSync handle blocking op datatype = some out) :
    Posted host threadId handle out type dst src size pe blocking := by
  have hring := build_queue_element_ring hb
  obtain ⟨-, -, -, hc, -, -, -, -, hbl, hnb⟩ := build_queue_element_some hb
  rw [run_pack host.mem threadId type dst src size pe logPE_stride PE_size pWrk pSync op
    datatype _ _ (fun h => absurd h hP)] at hring
  unfold Posted
  rw [hring, hc]
  simp only [Function.update_same, Function.update_idem, if_neg hP]
  refine ⟨trivial, trivial, trivial, trivial, trivial, trivial, trivial, ?_, hnb⟩
  intro hbt
  obtain ⟨hw, hs⟩ := hbl hbt
  obtain ⟨w1, w2, -⟩ := wait_host_some _ _ _ hw
  refine ⟨w1, w2, ?_⟩
  rw [hs]
  simp

/-! ## Payload size (C10) -/

/-- C10. Whenever `build_queue_element` returns, the `size` field of the element at the
claimed slot is the requested `size_t` size converted to a 32-bit signed integer: it lies in
the range of `int`, it is congruent to the requested size modulo 2^32, and it equals the
requested size exactly when that size is below 2^31. -/
theorem size_field_narrowing (host : Host) (fuel : Nat) (threadId : Int)
    (type : ro_net_cmds) (dst src size : Nat) (pe logPE_stride PE_size : Int)
    (pWrk pSync : Nat) (handle : ro_net_wg_handle) (blocking : Bool) (op : Int)
    (datatype : ro_net_types) (out : Outcome)
    (hb : build_queue_element host fuel threadId type dst src size pe logPE_stride PE_size
      pWrk pSync handle blocking op datatype = some out) :
    -2147483648 ≤ (out.handle.queue (physical_slot out.claimed handle.queue_size)).size ∧
    (out.handle.queue (physical_slot out.claimed handle.queue_size)).size < 2147483648 ∧
    ((out.handle.queue (physical_slot out.claimed handle.queue_size)).size - (size : Int))
      % 4294967296 = 0 ∧
    ((out.handle.queue (physical_slot out.claimed handle.queue_size)).size = (size : Int) ↔
      size < 2147483648) := by
  have hring := build_queue_element_ring hb
  obtain ⟨-, -, -, hc, -⟩ := build_queue_element_some hb
  have p4 := (run_pack_head host.mem threadId type dst src size pe logPE_stride PE_size pWrk
    pSync op datatype (physical_slot handle.write_idx handle.queue_size) handle.queue).2.2.2.1
  rw [hring, hc]
  simp only [Function.update_same]
  rw [p4]
  exact size_to_int_spec size

/-- C10, the example of the claim: a `putmem` of 2^32 bytes on an empty ring of capacity 4
returns and is recorded in slot 0 with size 0. -/
theorem size_field_narrowing_witness :
    ∃ out, putmem Host.prompt 1 0 0 4096 8192 4294967296 1 (ro_net_wg_handle.zeroed 4) =
        some out ∧
      physical_slot out.claimed 4 = 0 ∧
      (out.handle.queue 0).size = 0 ∧
      ¬ ((4294967296 : Nat) < 2147483648) := by
  obtain ⟨out, hout⟩ := build_queue_element_returns Host.prompt 1 0 ro_net_cmds.RO_NET_PUT
    4096 8192 4294967296 1 0 0 0 0 (ro_net_wg_handle.zeroed 4) true 0 ro_net_types.RO_NET_INT
    (by decide) (by decide) (fun _ => ⟨0, by decide, by decide⟩) (by decide)
  have hs := size_field_narrowing Host.prompt 1 0 ro_net_cmds.RO_NET_PUT
    4096 8192 4294967296 1 0 0 0 0 (ro_net_wg_handle.zeroed 4) true 0 ro_net_types.RO_NET_INT
    out hout
  obtain ⟨-, -, -, hc, -⟩ := build_queue_element_some hout
  have hslot : physical_slot out.claimed 4 = 0 := by rw [hc]; rfl
  refine ⟨out, hout, hslot, ?_, by decide⟩
  have h3 := hs.2.2.1
  have h1 := hs.1
  have h2 := hs.2.1
  change physical_slot out.claimed 4 = 0 at hslot
  simp only [ro_net_wg_handle.zeroed] at h1 h2 h3
  rw [hslot] at h1 h2 h3
  omega

/-! ## Blocking completion (C7) -/

/-- C7. A blocking call of `build_queue_element` that returns has loaded the status byte of
its own thread at least once, its last load returned a non-zero value and every earlier load
returned zero; on return the status byte of the thread is 0 and the status byte of every
other thread is as before. A non-blocking call that returns has loaded no status byte and
leaves the status array as it was, and its result does not depend on what loads of the
status byte would return. -/
theorem blocking_completion_handshake (host : Host) (fuel : Nat) (threadId : Int)
    (type : ro_net_cmds) (dst src size : Nat) (pe logPE_stride PE_size : Int)
    (pWrk pSync : Nat) (handle : ro_net_wg_handle) (op : Int) (datatype : ro_net_types) :
    (∀ out, build_queue_element host fuel threadId type dst src size pe logPE_stride PE_size
        pWrk pSync handle true op datatype = some out →
      0 < out.status_loads ∧ host.status (out.status_loads - 1) ≠ 0 ∧
      (∀ j, j < out.status_loads - 1 → host.status j = 0) ∧
      out.handle.status threadId = 0 ∧
      ∀ t, t ≠ threadId → out.handle.status t = handle.status t) ∧
    (∀ out, build_queue_element host fuel threadId type dst src size pe logPE_stride PE_size
        pWrk pSync handle false op datatype = some out →
      out.status_loads = 0 ∧ out.handle.status = handle.status) ∧
    (∀ answers : Nat → Int,
      build_queue_element { host with status := answers } fuel threadId type dst src size pe
        logPE_stride PE_size pWrk pSync handle false op datatype =
      build_queue_element host fuel threadId type dst src size pe logPE_stride PE_size
        pWrk pSync handle false op datatype) := by
  refine ⟨?_, ?_, ?_⟩
  · intro out hb
    obtain ⟨-, -, -, -, -, -, -, -, hbl, -⟩ := build_queue_element_some hb
    obtain ⟨hw, hs⟩ := hbl rfl
    obtain ⟨w1, w2, w3⟩ := wait_host_some _ _ _ hw
    refine ⟨w1, w2, fun j hj => w3 j (Nat.zero_le j) hj, ?_, ?_⟩
    · rw [hs]; simp
    · intro t ht
      rw [hs]
      simp [Function.update_noteq ht]
  · intro out hb
    obtain ⟨-, -, -, -, -, -, -, -, -, hnb⟩ := build_queue_element_some hb
    exact hnb rfl
  · intro answers
    simp [build_queue_element]

/-- C7 at a concrete input: on an empty ring of capacity 4 with a host whose third answer
is the first non-zero one, a blocking `RO_NET_PUT` of thread 5 returns after exactly three
loads of its status byte and leaves that byte 0. -/
theorem blocking_completion_handshake_witness :
    ∃ out, build_queue_element
        { read_idx := fun _ => 0, status := fun k => if k < 2 then 0 else 1, mem := fun _ => 0 }
        3 5 ro_net_cmds.RO_NET_PUT 4096 8192 64 1 0 0 0 0
        { ro_net_wg_handle.zeroed 4 with status := fun _ => 7 } true 0
        ro_net_types.RO_NET_INT = some out ∧
      out.status_loads = 3 ∧ out.handle.status 5 = 0 ∧ out.handle.status 6 = 7 := by
  refine ⟨_, rfl, ?_⟩
  have h := (blocking_completion_handshake
    { read_idx := fun _ => 0, status := fun k => if k < 2 then 0 else 1, mem := fun _ => 0 }
    3 5 ro_net_cmds.RO_NET_PUT 4096 8192 64 1 0 0 0 0
    { ro_net_wg_handle.zeroed 4 with status := fun _ => 7 } 0
    ro_net_types.RO_NET_INT).1 _ rfl
  exact ⟨rfl, h.2.2.2.1, h.2.2.2.2 6 (by decide)⟩


/-! ## Pack, then publish (C6) -/

/-- C6, as the code has it. Take a call of `build_queue_element` that returns and whose
inline payload, if the kind is `RO_NET_P`, has at most 8 bytes. Its stores to the ring, in
program order, are the packing stores followed by the single store `valid := 1`, and no
packing store writes `valid`; the ring on return is the result of performing these stores
one after the other, and after any number of them short of all, `valid` of the element at
the physical slot still has its previous value. After the packing stores (at the first fence) the element at the
physical slot (claimed index modulo capacity) has the command kind, peer id, converted size,
destination and thread id of the call, its `src` is the argument (for `RO_NET_P`: the field
with its first `size` bytes replaced by the payload), its six collective fields are the
arguments when the kind is `RO_NET_TO_ALL` and their previous contents for every other kind,
and its `valid` flag still has its previous value; on return the element differs from that
in `valid` only, which is 1; no other element of the ring is modified. -/
theorem pack_then_publish (host : Host) (fuel : Nat) (threadId : Int)
    (type : ro_net_cmds) (dst src size : Nat) (pe logPE_stride PE_size : Int)
    (pWrk pSync : Nat) (handle : ro_net_wg_handle) (blocking : Bool) (op : Int)
    (datatype : ro_net_types) (out : Outcome)
    (hfit : type = ro_net_cmds.RO_NET_P → size ≤ 8)
    (hb : build_queue_element host fuel threadId type dst src size pe logPE_stride PE_size
      pWrk pSync handle blocking op datatype = some out) :
    out.stores =
      pack_stores threadId type dst src size pe logPE_stride PE_size pWrk pSync op datatype
        ++ [Store.valid 1] ∧
    (∀ st ∈ pack_stores threadId type dst src size pe logPE_stride PE_size pWrk pSync op
      datatype, st.is_valid = false) ∧
    out.handle.queue =
      run_stores host.mem (physical_slot out.claimed handle.queue_size) handle.queue
        out.stores ∧
    (∀ n, n < out.stores.length →
      (run_stores host.mem (physical_slot out.claimed handle.queue_size) handle.queue
        (out.stores.take n) (physical_slot out.claimed handle.queue_size)).valid =
      (handle.queue (physical_slot out.claimed handle.queue_size)).valid) ∧
    (∃ e,
      run_stores host.mem (physical_slot out.claimed handle.queue_size) handle.queue
          (pack_stores threadId type dst src size pe logPE_stride PE_size pWrk pSync op
            datatype) =
        Function.update handle.queue (physical_slot out.claimed handle.queue_size) e ∧
      e.valid = (handle.queue (physical_slot out.claimed handle.queue_size)).valid ∧
      e.type = type.toInt ∧ e.PE = pe ∧ e.size = size_to_int size ∧ e.dst = dst ∧
      e.threadId = threadId ∧
      (type ≠ ro_net_cmds.RO_NET_P → e.src = src) ∧
      (type = ro_net_cmds.RO_NET_P →
        e.src = copy_nat host.mem src size 0 8
          (handle.queue (physical_slot out.claimed handle.queue_size)).src) ∧
      (type = ro_net_cmds.RO_NET_TO_ALL →
        e.logPE_stride = logPE_stride ∧ e.PE_size = PE_size ∧ e.pWrk = pWrk ∧
        e.pSync = pSync ∧ e.op = op ∧ e.datatype = datatype.toInt) ∧
      (type ≠ ro_net_cmds.RO_NET_TO_ALL →
        e.logPE_stride = (handle.queue (physical_slot out.claimed handle.queue_size)).logPE_stride ∧
        e.PE_size = (handle.queue (physical_slot out.claimed handle.queue_size)).PE_size ∧
        e.pWrk = (handle.queue (physical_slot out.claimed handle.queue_size)).pWrk ∧
        e.pSync = (handle.queue (physical_slot out.claimed handle.queue_size)).pSync ∧
        e.op = (handle.queue (physical_slot out.claimed handle.queue_size)).op ∧
        e.datatype = (handle.queue (physical_slot out.claimed handle.queue_size)).datatype) ∧
      out.handle.queue (physical_slot out.claimed handle.queue_size) = { e with valid := 1 }) ∧
    ∀ j, j ≠ physical_slot out.claimed handle.queue_size →
      out.handle.queue j = handle.queue j := by
  have hring := build_queue_element_ring hb
  obtain ⟨-, -, -, hc, hs, hq, -⟩ := build_queue_element_some hb
  have hpack := run_pack host.mem threadId type dst src size pe logPE_stride PE_size pWrk
    pSync op datatype (physical_slot handle.write_idx handle.queue_size) handle.queue hfit
  rw [hpack] at hring
  rw [hc]
  refine ⟨hs, pack_stores_not_valid _ _ _ _ _ _ _ _ _ _ _ _, hq, ?_, ⟨_, hpack, ?_⟩, ?_⟩
  · intro n hn
    rw [hs] at hn ⊢
    simp only [List.length_append, publish_stores, List.length_singleton] at hn ⊢
    rw [List.take_append_of_le_length (by omega)]
    exact run_stores_valid_unchanged _ _ _ _ (fun st hst =>
      pack_stores_not_valid _ _ _ _ _ _ _ _ _ _ _ _ st (List.mem_of_mem_take hst))
  · refine ⟨rfl, rfl, rfl, rfl, rfl, rfl, ?_, ?_, ?_, ?_, ?_⟩
    · intro h; simp [h]
    · intro h; simp [h]
    · intro h; simp [h]
    · intro h; simp [h]
    · rw [hring]
      simp
  · intro j hj
    rw [hring]
    simp [Function.update_noteq hj]

/-- C6 at a concrete input: a collective `RO_NET_TO_ALL` of thread 3 on an empty ring of
capacity 4 performs twelve packing stores and then `valid := 1`, fills slot 0 with every
argument and leaves slot 1 untouched. -/
theorem pack_then_publish_witness :
    ∃ out, build_queue_element Host.prompt 1 3 ro_net_cmds.RO_NET_TO_ALL 4096 8192 64 1 2 8
        12288 16384 (ro_net_wg_handle.zeroed 4) false 9 ro_net_types.RO_NET_LONG = some out ∧
      out.stores =
        [Store.type ro_net_cmds.RO_NET_TO_ALL, Store.PE 1, Store.size 64, Store.dst 4096,
         Store.src 8192, Store.threadId 3, Store.logPE_stride 2, Store.PE_size 8,
         Store.pWrk 12288, Store.pSync 16384, Store.op 9, Store.datatype 3, Store.valid 1] ∧
      out.handle.queue 0 =
        { valid := 1, type := ro_net_cmds.RO_NET_TO_ALL.toInt, PE := 1, size := 64,
          src := 8192, dst := 4096, threadId := 3, logPE_stride := 2, PE_size := 8,
          pWrk := 12288, pSync := 16384, op := 9, datatype := 3 } ∧
      out.handle.queue 1 = (ro_net_wg_handle.zeroed 4).queue 1 := by
  refine ⟨_, rfl, ?_⟩
  have h := pack_then_publish Host.prompt 1 3 ro_net_cmds.RO_NET_TO_ALL 4096 8192 64 1 2 8
      12288 16384 (ro_net_wg_handle.zeroed 4) false 9 ro_net_types.RO_NET_LONG _
      (by decide) rfl
  exact ⟨h.1, by decide, h.2.2.2.2.2 1 (by decide)⟩

/-- C6 as stated fails: a non-collective `RO_NET_PUT` called with stride 7, group size 8,
work buffer 12288, sync array 16384, operator 9 and datatype `RO_NET_LONG` on an empty ring
returns, and the element it published still has the six collective fields of the previous
content of the slot (all zero), none of them the argument of the call. -/
theorem collective_fields_not_written :
    ∃ out, build_queue_element Host.prompt 1 3 ro_net_cmds.RO_NET_PUT 4096 8192 64 1 7 8
        12288 16384 (ro_net_wg_handle.zeroed 4) false 9 ro_net_types.RO_NET_LONG = some out ∧
      (out.handle.queue (physical_slot out.claimed 4)).valid = 1 ∧
      (out.handle.queue (physical_slot out.claimed 4)).logPE_stride = 0 ∧
      (out.handle.queue (physical_slot out.claimed 4)).logPE_stride ≠ 7 ∧
      (out.handle.queue (physical_slot out.claimed 4)).PE_size ≠ 8 ∧
      (out.handle.queue (physical_slot out.claimed 4)).pWrk ≠ 12288 ∧
      (out.handle.queue (physical_slot out.claimed 4)).pSync ≠ 16384 ∧
      (out.handle.queue (physical_slot out.claimed 4)).op ≠ 9 ∧
      (out.handle.queue (physical_slot out.claimed 4)).datatype ≠
        ro_net_types.RO_NET_LONG.toInt :=
  ⟨_, rfl, by decide, by decide, by decide, by decide, by decide, by decide, by decide,
    by decide⟩

/-- The inline copy of line 278 is not bounded by its destination. An `RO_NET_P` of 16
bytes with destination 4096, the payload bytes all being 255, returns with the `dst` field
of its element overwritten by the payload; with 200 bytes the copy also overwrites the
`valid` flag and the kind of the next element of the ring and ends before its `dst`. -/
theorem inline_copy_overruns :
    (∃ out, build_queue_element { Host.prompt with mem := fun _ => 255 } 1 3
        ro_net_cmds.RO_NET_P 4096 8192 16 1 0 0 0 0 (ro_net_wg_handle.zeroed 4) false 0
        ro_net_types.RO_NET_INT = some out ∧
      (out.handle.queue 0).dst = 18446744073709551615 ∧ (out.handle.queue 0).valid = 1 ∧
      out.handle.queue 1 = (ro_net_wg_handle.zeroed 4).queue 1) ∧
    (∃ out, build_queue_element { Host.prompt with mem := fun _ => 255 } 1 3
        ro_net_cmds.RO_NET_P 4096 8192 200 1 0 0 0 0 (ro_net_wg_handle.zeroed 4) false 0
        ro_net_types.RO_NET_INT = some out ∧
      (out.handle.queue 0).threadId = 3 ∧ (out.handle.queue 1).valid = -1 ∧
      (out.handle.queue 1).type = -1 ∧ (out.handle.queue 1).dst = 0) :=
  ⟨⟨_, rfl, by decide, by decide, by decide⟩, ⟨_, rfl, by decide, by decide, by decide,
    by decide⟩⟩

/-! ## Public operations (C5) -/

/-- C5, as the code has it. Each public operation is one call of `build_queue_element`:
`putmem` and `getmem` post `RO_NET_PUT` and `RO_NET_GET` as blocking commands with the given
`dest`, `source`, `nelems` and `pe`; `putmem_nbi` and `getmem_nbi` post `RO_NET_PUT_NBI` and
`RO_NET_GET_NBI` with the same arguments as non-blocking commands; `fence`, `quiet`,
`barrier_all` and `sync_all` post `RO_NET_FENCE`, `RO_NET_QUIET` and (both)
`RO_NET_BARRIER_ALL` as blocking commands of size 0 with null addresses. Whenever the
operation returns, the element at the claimed slot holds the published command (`Posted`):
its kind, `dest`, `source` and `pe` are the given ones and its size is `nelems` converted to
the 32-bit `int` field, which equals `nelems` exactly when `nelems` is below 2^31; a
blocking operation has seen a non-zero completion status and reset it, and a non-blocking
one has not loaded or stored a status byte. `barrier_all` and `sync_all` are the same
function. -/
theorem public_operations_post (host : Host) (fuel : Nat) (threadId : Int)
    (ROC_SHMEM_SUM : Int) (dest source nelems : Nat) (pe : Int)
    (backend_ctx : ro_net_wg_handle) :
    (putmem host fuel threadId ROC_SHMEM_SUM dest source nelems pe backend_ctx =
        build_queue_element host fuel threadId ro_net_cmds.RO_NET_PUT dest source nelems pe
          0 0 0 0 backend_ctx true ROC_SHMEM_SUM ro_net_types.RO_NET_INT ∧
      ∀ out, putmem host fuel threadId ROC_SHMEM_SUM dest source nelems pe backend_ctx =
          some out →
        Posted host threadId backend_ctx out ro_net_cmds.RO_NET_PUT dest source nelems pe
          true) ∧
    (getmem host fuel threadId ROC_SHMEM_SUM dest source nelems pe backend_ctx =
        build_queue_element host fuel threadId ro_net_cmds.RO_NET_GET dest source nelems pe
          0 0 0 0 backend_ctx true ROC_SHMEM_SUM ro_net_types.RO_NET_INT ∧
      ∀ out, getmem host fuel threadId ROC_SHMEM_SUM dest source nelems pe backend_ctx =
          some out →
        Posted host threadId backend_ctx out ro_net_cmds.RO_NET_GET dest source nelems pe
          true) ∧
    (putmem_nbi host fuel threadId ROC_SHMEM_SUM dest source nelems pe backend_ctx =
        build_queue_element host fuel threadId ro_net_cmds.RO_NET_PUT_NBI dest source nelems
          pe 0 0 0 0 backend_ctx false ROC_SHMEM_SUM ro_net_types.RO_NET_INT ∧
      ∀ out, putmem_nbi host fuel threadId ROC_SHMEM_SUM dest source nelems pe backend_ctx =
          some out →
        Posted host threadId backend_ctx out ro_net_cmds.RO_NET_PUT_NBI dest source nelems pe
          false) ∧
    (getmem_nbi host fuel threadId ROC_SHMEM_SUM dest source nelems pe backend_ctx =
        build_queue_element host fuel threadId ro_net_cmds.RO_NET_GET_NBI dest source nelems
          pe 0 0 0 0 backend_ctx false ROC_SHMEM_SUM ro_net_types.RO_NET_INT ∧
      ∀ out, getmem_nbi host fuel threadId ROC_SHMEM_SUM dest source nelems pe backend_ctx =
          some out →
        Posted host threadId backend_ctx out ro_net_cmds.RO_NET_GET_NBI dest source nelems pe
          false) ∧
    (fence host fuel threadId ROC_SHMEM_SUM backend_ctx =
        build_queue_element host fuel threadId ro_net_cmds.RO_NET_FENCE 0 0 0 0 0 0 0 0
          backend_ctx true ROC_SHMEM_SUM ro_net_types.RO_NET_INT ∧
      ∀ out, fence host fuel threadId ROC_SHMEM_SUM backend_ctx = some out →
        Posted host threadId backend_ctx out ro_net_cmds.RO_NET_FENCE 0 0 0 0 true) ∧
    (quiet host fuel threadId ROC_SHMEM_SUM backend_ctx =
        build_queue_element host fuel threadId ro_net_cmds.RO_NET_QUIET 0 0 0 0 0 0 0 0
          backend_ctx true ROC_SHMEM_SUM ro_net_types.RO_NET_INT ∧
      ∀ out, quiet host fuel threadId ROC_SHMEM_SUM backend_ctx = some out →
        Posted host threadId backend_ctx out ro_net_cmds.RO_NET_QUIET 0 0 0 0 true) ∧
    (barrier_all host fuel threadId ROC_SHMEM_SUM backend_ctx =
        build_queue_element host fuel threadId ro_net_cmds.RO_NET_BARRIER_ALL 0 0 0 0 0 0 0 0
          backend_ctx true ROC_SHMEM_SUM ro_net_types.RO_NET_INT ∧
      ∀ out, barrier_all host fuel threadId ROC_SHMEM_SUM backend_ctx = some out →
        Posted host threadId backend_ctx out ro_net_cmds.RO_NET_BARRIER_ALL 0 0 0 0 true) ∧
    (sync_all host fuel threadId ROC_SHMEM_SUM backend_ctx =
        barrier_all host fuel threadId ROC_SHMEM_SUM backend_ctx) ∧
    (size_to_int nelems = (nelems : Int) ↔ nelems < 2147483648) ∧
    size_to_int 0 = 0 := by
  refine ⟨⟨rfl, fun out h => posted_of_some (by decide) h⟩,
    ⟨rfl, fun out h => posted_of_some (by decide) h⟩,
    ⟨rfl, fun out h => posted_of_some (by decide) h⟩,
    ⟨rfl, fun out h => posted_of_some (by decide) h⟩,
    ⟨rfl, fun out h => posted_of_some (by decide) h⟩,
    ⟨rfl, fun out h => posted_of_some (by decide) h⟩,
    ⟨rfl, fun out h => posted_of_some (by decide) h⟩, rfl,
    (size_to_int_spec nelems).2.2.2, by decide⟩

/-- C5 at a concrete input: on an empty ring of capacity 4 a `putmem` of 64 bytes by thread
2 returns with the published `RO_NET_PUT` in slot 0 after one load of the status byte, and a
`putmem_nbi` returns with a published `RO_NET_PUT_NBI` after none. -/
theorem public_operations_post_witness :
    (∃ out, putmem Host.prompt 1 2 0 4096 8192 64 1 (ro_net_wg_handle.zeroed 4) = some out ∧
      Posted Host.prompt 2 (ro_net_wg_handle.zeroed 4) out ro_net_cmds.RO_NET_PUT 4096 8192
        64 1 true ∧
      (out.handle.queue 0).size = 64 ∧ out.status_loads = 1) ∧
    (∃ out, putmem_nbi Host.prompt 1 2 0 4096 8192 64 1 (ro_net_wg_handle.zeroed 4) =
        some out ∧
      Posted Host.prompt 2 (ro_net_wg_handle.zeroed 4) out ro_net_cmds.RO_NET_PUT_NBI 4096
        8192 64 1 false ∧
      (out.handle.queue 0).type = ro_net_cmds.RO_NET_PUT_NBI.toInt ∧ out.status_loads = 0) :=
  ⟨⟨_, rfl, (public_operations_post Host.prompt 1 2 0 4096 8192 64 1
      (ro_net_wg_handle.zeroed 4)).1.2 _ rfl, by decide, rfl⟩,
   ⟨_, rfl, (public_operations_post Host.prompt 1 2 0 4096 8192 64 1
      (ro_net_wg_handle.zeroed 4)).2.2.1.2 _ rfl, rfl, rfl⟩⟩

/-- C5 as stated fails: a `putmem` of 2^31 bytes on an empty ring returns, and the command it
posted carries the size -2147483648, not the given `nelems`; a `getmem_nbi` of 3000000000
bytes posts the size -1294967296. -/
theorem posted_size_is_not_nelems :
    (∃ out, putmem Host.prompt 1 2 0 4096 8192 2147483648 1 (ro_net_wg_handle.zeroed 4) =
        some out ∧
      (out.handle.queue (physical_slot out.claimed 4)).type = ro_net_cmds.RO_NET_PUT.toInt ∧
      (out.handle.queue (physical_slot out.claimed 4)).valid = 1 ∧
      (out.handle.queue (physical_slot out.claimed 4)).size = -2147483648 ∧
      (out.handle.queue (physical_slot out.claimed 4)).size ≠ ((2147483648 : Nat) : Int)) ∧
    (∃ out, getmem_nbi Host.prompt 1 2 0 4096 8192 3000000000 1 (ro_net_wg_handle.zeroed 4) =
        some out ∧
      (out.handle.queue (physical_slot out.claimed 4)).size = -1294967296 ∧
      (out.handle.queue (physical_slot out.claimed 4)).size ≠ ((3000000000 : Nat) : Int)) :=
  ⟨⟨_, rfl, by decide, by decide, by decide, by decide⟩, ⟨_, rfl, by decide, by decide⟩⟩

/-! ## Unsupported atomics (C8) -/

/-- With assertions enabled (`NDEBUG` not defined) each of the four atomic operations ends
in the failed assertion, whatever its arguments. -/
theorem amo_assertion_fails (dst : Nat) (value cond pe : Int) :
    amo_fetch_cas false dst value cond pe = Termination.assertion_failed ∧
    amo_cas false dst value cond pe = Termination.assertion_failed ∧
    amo_fetch_add false dst value cond pe = Termination.assertion_failed ∧
    amo_add false dst value cond pe = Termination.assertion_failed :=
  ⟨rfl, rfl, rfl, rfl⟩

/-- C8 fails on the code when it is compiled with `NDEBUG`: `assert(0)` expands to nothing,
so `amo_fetch_cas` and `amo_fetch_add` called with the value 5 return 5 to the caller, and
`amo_cas` and `amo_add` return normally. -/
theorem amo_returns_under_NDEBUG :
    amo_fetch_cas true 4096 5 0 1 = Termination.returned 5 ∧
    amo_fetch_add true 4096 5 0 1 = Termination.returned 5 ∧
    amo_cas true 4096 5 0 1 = Termination.returned () ∧
    amo_add true 4096 5 0 1 = Termination.returned () :=
  ⟨rfl, rfl, rfl, rfl⟩

/-! ## Teardown (C9) -/

/-- C9, as the code has it. When `ctx_destroy` returns on the designated thread, the write
index in the descriptor of the channel equals the local write index, and that value is the
local write index before teardown plus 1 modulo 2^64 (plus exactly 1 unless the index was
2^64 - 1); no read index of a descriptor and no other descriptor is changed; a channel
state created from the descriptor afterwards starts at that write index. On any other
thread `ctx_destroy` changes nothing. -/
theorem teardown_flush (host : Host) (fuel : Nat) (threadId : Int) (ROC_SHMEM_SUM : Int)
    (buffer_id : Nat) (handle handle' : ro_net_handle) (backend_ctx ctx' : ro_net_wg_handle)
    (hd : ctx_destroy host fuel threadId ROC_SHMEM_SUM true buffer_id handle backend_ctx =
      some (handle', ctx')) :
    (handle'.queue_descs buffer_id).write_idx = ctx'.write_idx ∧
    ctx'.write_idx = succ64 backend_ctx.write_idx ∧
    (backend_ctx.write_idx + 1 < U64 → ctx'.write_idx = backend_ctx.write_idx + 1) ∧
    (∀ b, (handle'.queue_descs b).read_idx = (handle.queue_descs b).read_idx) ∧
    (∀ b, b ≠ buffer_id → handle'.queue_descs b = handle.queue_descs b) ∧
    (∀ fresh, (ROContext_create true buffer_id handle' fresh).write_idx = ctx'.write_idx) ∧
    ctx_destroy host fuel threadId ROC_SHMEM_SUM false buffer_id handle backend_ctx =
      some (handle, backend_ctx) := by
  unfold ctx_destroy at hd
  simp only [if_true] at hd
  split at hd
  · exact absurd hd (by simp)
  · rename_i out hb
    simp only [Option.some.injEq, Prod.mk.injEq] at hd
    obtain ⟨e1, e2⟩ := hd
    subst e1 e2
    obtain ⟨-, -, -, -, -, -, hw, -, -, -⟩ := build_queue_element_some hb
    refine ⟨by simp, hw, ?_, ?_, ?_, ?_, ?_⟩
    · intro hlt
      rw [hw]
      exact Nat.mod_eq_of_lt hlt
    · intro b
      by_cases hbb : b = buffer_id
      · subst hbb; simp
      · simp [Function.update_noteq hbb]
    · intro b hbb
      simp [Function.update_noteq hbb]
    · intro fresh
      simp [ROContext_create]
    · simp [ctx_destroy]

/-- C9 at a concrete input: teardown of a channel of capacity 4 with local write index 6 and
read index 5 returns with write index 7 in the channel state and in descriptor 2, whose read
index is untouched. -/
theorem teardown_flush_witness :
    ∃ handle' ctx',
      ctx_destroy Host.prompt 1 0 0 true 2 (ro_net_handle.zeroed 4)
        { ro_net_wg_handle.zeroed 4 with write_idx := 6, read_idx := 5 } =
        some (handle', ctx') ∧
      (handle'.queue_descs 2).write_idx = 7 ∧ ctx'.write_idx = 7 ∧
      (handle'.queue_descs 2).read_idx = 0 := by
  refine ⟨_, _, rfl, ?_⟩
  have h := teardown_flush Host.prompt 1 0 0 2 (ro_net_handle.zeroed 4) _
    { ro_net_wg_handle.zeroed 4 with write_idx := 6, read_idx := 5 } _ rfl
  exact ⟨rfl, h.2.2.1 (by decide), h.2.2.2.1 2⟩

/-- C9 as stated fails at the largest write index: teardown of an empty channel whose local
write index is 2^64 - 1 returns with write index 0 in the channel state and in the
descriptor, not with 2^64. -/
theorem teardown_wraps_write_idx :
    ∃ handle' ctx',
      ctx_destroy Host.prompt 1 0 0 true 0 (ro_net_handle.zeroed 4)
        { ro_net_wg_handle.zeroed 4 with
          write_idx := 18446744073709551615, read_idx := 18446744073709551615 } =
        some (handle', ctx') ∧
      (handle'.queue_descs 0).write_idx = 0 ∧ ctx'.write_idx = 0 ∧
      (handle'.queue_descs 0).write_idx ≠ 18446744073709551615 + 1 :=
  ⟨_, _, rfl, rfl, rfl, by decide⟩

/-! ## Bounded occupancy (C1) -/

theorem occupancyInv_of_start {s : Channel}
    (hlr : s.handle.read_idx ≤ s.host_read_idx)
    (hrw : s.host_read_idx ≤ s.handle.write_idx)
    (hw : s.handle.write_idx < U64)
    (hocc : s.handle.write_idx - s.handle.read_idx ≤ s.handle.queue_size)
    (hcap : s.handle.queue_size < U64) : OccupancyInv s := by
  unfold OccupancyInv
  rw [sub64_of_le hlr (by omega), sub64_of_le hrw hw]
  omega

theorem occupancyInv_producer {s s' : Channel} (hi : OccupancyInv s)
    (hp : ProducerStep s s') :
    OccupancyInv s' ∧ s'.handle.queue_size = s.handle.queue_size := by
  obtain ⟨fuel, h, c, k, ha, rfl⟩ := hp
  obtain ⟨-, a2, a3, a4⟩ := acquire_slot_some ha
  obtain ⟨i1, i2, i3, i4, i5⟩ := hi
  have hq : h.queue_size = s.handle.queue_size := by rw [a2]
  have hw : h.write_idx = succ64 s.handle.write_idx := by rw [a2]
  rw [isFull_eq_false_iff i2] at a3
  refine ⟨?_, hq⟩
  unfold OccupancyInv
  simp only [hq, hw]
  have hr : h.read_idx = s.handle.read_idx ∨ h.read_idx = s.host_read_idx := by
    rcases a4 with ⟨-, e⟩ | ⟨-, e⟩
    · exact Or.inl e
    · right
      rw [e]
      exact Nat.mod_eq_of_lt i4
  rcases hr with e | e <;> rw [e] at a3 ⊢ <;>
    simp only [sub64, succ64, U64] at * <;> omega

theorem occupancyInv_consumer {s s' : Channel} (hi : OccupancyInv s)
    (hc : ConsumerStep s s') :
    OccupancyInv s' ∧ s'.handle.queue_size = s.handle.queue_size := by
  obtain ⟨hne, rfl⟩ := hc
  obtain ⟨i1, i2, i3, i4, i5⟩ := hi
  refine ⟨?_, rfl⟩
  unfold OccupancyInv
  simp only [sub64, succ64, U64] at *
  omega

theorem occupancyInv_reachable {s0 s : Channel} (hi : OccupancyInv s0)
    (hr : Reachable s0 s) :
    OccupancyInv s ∧ s.handle.queue_size = s0.handle.queue_size := by
  induction hr with
  | start => exact ⟨hi, rfl⟩
  | producer _ hp ih =>
    obtain ⟨h1, h2⟩ := occupancyInv_producer ih.1 hp
    exact ⟨h1, h2.trans ih.2⟩
  | consumer _ hc ih =>
    obtain ⟨h1, h2⟩ := occupancyInv_consumer ih.1 hc
    exact ⟨h1, h2.trans ih.2⟩

/-- C1, as the code has it. From any state with local read index <= descriptor read index
<= write index in which the write index is at most `queue_size` ahead of the LOCAL read
index, every state reachable by successful slot claims and consumer drains has at most
`queue_size` undrained elements: the distance from the descriptor's read index to the
write index, on the 64-bit counters and as a plain difference, never exceeds the capacity,
and the capacity never changes. -/
theorem bounded_occupancy (s0 s : Channel)
    (hlr : s0.handle.read_idx ≤ s0.host_read_idx)
    (hrw : s0.host_read_idx ≤ s0.handle.write_idx)
    (hw : s0.handle.write_idx < U64)
    (hocc : s0.handle.write_idx - s0.handle.read_idx ≤ s0.handle.queue_size)
    (hcap : s0.handle.queue_size < U64)
    (hreach : Reachable s0 s) :
    sub64 s.handle.write_idx s.host_read_idx ≤ s.handle.queue_size ∧
    s.handle.write_idx - s.host_read_idx ≤ s.handle.queue_size ∧
    s.handle.queue_size = s0.handle.queue_size := by
  obtain ⟨⟨i1, i2, i3, i4, i5⟩, hq⟩ :=
    occupancyInv_reachable (occupancyInv_of_start hlr hrw hw hocc hcap) hreach
  refine ⟨by omega, ?_, hq⟩
  simp only [sub64, U64] at *
  omega

/-- C1 at a concrete input: from a fresh channel of capacity 2, two claims and one drain
reach write index 2 and read index 1, within the bound. -/
theorem bounded_occupancy_witness :
    ∃ s, Reachable (Channel.fresh 2) s ∧ s.handle.write_idx = 2 ∧ s.host_read_idx = 1 ∧
      sub64 s.handle.write_idx s.host_read_idx ≤ s.handle.queue_size := by
  have h1 : ProducerStep (Channel.fresh 2)
      { handle := { ro_net_wg_handle.zeroed 2 with write_idx := 1 }, host_read_idx := 0 } :=
    ⟨1, _, 0, 0, rfl, rfl⟩
  have h2 : ProducerStep
      { handle := { ro_net_wg_handle.zeroed 2 with write_idx := 1 }, host_read_idx := 0 }
      { handle := { ro_net_wg_handle.zeroed 2 with write_idx := 2 }, host_read_idx := 0 } :=
    ⟨1, _, 1, 0, rfl, rfl⟩
  have h3 : ConsumerStep
      { handle := { ro_net_wg_handle.zeroed 2 with write_idx := 2 }, host_read_idx := 0 }
      { handle := { ro_net_wg_handle.zeroed 2 with write_idx := 2 }, host_read_idx := 1 } :=
    ⟨by decide, rfl⟩
  have hr := Reachable.consumer (Reachable.producer (Reachable.producer Reachable.start h1) h2) h3
  exact ⟨_, hr, rfl, rfl,
    (bounded_occupancy (Channel.fresh 2) _ (by decide) (by decide) (by decide) (by decide)
      (by decide) hr).1⟩

/-- C1 as stated fails: `lagging_channel` (capacity 4, local read index 0, descriptor read
index 1, write index 5) satisfies local read index <= descriptor read index <= write index
and has 4 <= capacity undrained elements, yet `isFull(0, 5, 4)` is false, so a claim
succeeds and leaves 5 undrained elements in a ring of 4. -/
theorem occupancy_exceeded_when_local_index_lags :
    lagging_channel.handle.read_idx ≤ lagging_channel.host_read_idx ∧
    lagging_channel.host_read_idx ≤ lagging_channel.handle.write_idx ∧
    lagging_channel.handle.write_idx - lagging_channel.host_read_idx
      ≤ lagging_channel.handle.queue_size ∧
    0 < lagging_channel.handle.queue_size ∧
    isFull lagging_channel.handle.read_idx lagging_channel.handle.write_idx
      lagging_channel.handle.queue_size = false ∧
    ∃ s, Reachable lagging_channel s ∧ s.handle.queue_size = 4 ∧
      s.handle.write_idx - s.host_read_idx = 5 ∧
      ¬ (s.handle.write_idx - s.host_read_idx ≤ s.handle.queue_size) := by
  refine ⟨by decide, by decide, by decide, by decide, by decide, ?_⟩
  have h1 : ProducerStep lagging_channel
      { handle := { ro_net_wg_handle.zeroed 4 with write_idx := 6 }, host_read_idx := 1 } :=
    ⟨1, _, 5, 0, rfl, rfl⟩
  exact ⟨_, Reachable.producer Reachable.start h1, rfl, rfl, by decide⟩

/-! ## Lemmas on the interleaved slot acquisition -/

theorem run_append (s : Sys) (a b : List Action) : run s (a ++ b) = run (run s a) b := by
  induction a generalizing s with
  | nil => rfl
  | cons x a ih => exact ih (step s x)

theorem run_replicate_succ (s : Sys) (a : Action) (k : Nat) :
    run s (List.replicate (k + 1) a) = step (run s (List.replicate k a)) a := by
  rw [List.replicate_succ', run_append]
  rfl

theorem claims_append (l1 l2 : List Event) : claims (l1 ++ l2) = claims l1 ++ claims l2 := by
  induction l1 with
  | nil => rfl
  | cons e l1 ih => cases e <;> simp [claims, ih]

theorem full_count_append (l1 l2 : List Event) :
    full_count (l1 ++ l2) = full_count l1 + full_count l2 := by
  induction l1 with
  | nil => simp [full_count]
  | cons e l1 ih => cases e <;> simp [full_count, ih]; omega

theorem spinning_step {s : Sys} {i w r : Nat} (hw : s.write_idx = w) (hr : s.read_idx = r)
    (hh : s.host_read_idx = r) (hfull : isFull r w s.queue_size = true)
    (hsp : Spinning w r (s.thr i)) :
    (step s (Action.thread i)).write_idx = w ∧ (step s (Action.thread i)).read_idx = r ∧
    (step s (Action.thread i)).host_read_idx = r ∧
    (step s (Action.thread i)).queue_size = s.queue_size ∧
    claims (step s (Action.thread i)).log = claims s.log ∧
    Spinning w r ((step s (Action.thread i)).thr i) := by
  subst hw hr
  rcases hsp with h | ⟨h, e⟩ | ⟨h, e⟩ | ⟨h, e⟩ | ⟨h, e, e'⟩
  · simp [step, h, Spinning, hh]
  · simp [step, h, Spinning, hh, e]
  · simp [step, h, Spinning, hh, e, hfull, claims_append, claims]
  · simp [step, h, Spinning, hh, e]
  · simp [step, h, Spinning, hh, e, e']

theorem spinning_run {s : Sys} {i : Nat} (hh : s.host_read_idx = s.read_idx)
    (hfull : isFull s.read_idx s.write_idx s.queue_size = true)
    (hsp : Spinning s.write_idx s.read_idx (s.thr i)) (k : Nat) :
    (run s (List.replicate k (Action.thread i))).write_idx = s.write_idx ∧
    (run s (List.replicate k (Action.thread i))).read_idx = s.read_idx ∧
    (run s (List.replicate k (Action.thread i))).host_read_idx = s.read_idx ∧
    (run s (List.replicate k (Action.thread i))).queue_size = s.queue_size ∧
    claims (run s (List.replicate k (Action.thread i))).log = claims s.log ∧
    Spinning s.write_idx s.read_idx ((run s (List.replicate k (Action.thread i))).thr i) := by
  induction k with
  | zero => exact ⟨rfl, rfl, hh, rfl, rfl, hsp⟩
  | succ k ih =>
    rw [run_replicate_succ]
    obtain ⟨h1, h2, h3, h4, h5, h6⟩ := ih
    obtain ⟨g1, g2, g3, g4, g5, g6⟩ :=
      spinning_step h1 h2 h3 (by rw [h4]; exact hfull) h6
    exact ⟨g1, g2, g3, g4.trans h4, g5.trans h5, g6⟩

theorem drain_run {s : Sys} (hw : s.write_idx < U64) (m : Nat)
    (hm : s.host_read_idx + m ≤ s.write_idx) :
    (run s (List.replicate m Action.drain)).write_idx = s.write_idx ∧
    (run s (List.replicate m Action.drain)).read_idx = s.read_idx ∧
    (run s (List.replicate m Action.drain)).host_read_idx = s.host_read_idx + m ∧
    (run s (List.replicate m Action.drain)).queue_size = s.queue_size ∧
    claims (run s (List.replicate m Action.drain)).log = claims s.log ∧
    (run s (List.replicate m Action.drain)).thr = s.thr := by
  induction m with
  | zero => exact ⟨rfl, rfl, rfl, rfl, rfl, rfl⟩
  | succ m ih =>
    rw [run_replicate_succ]
    obtain ⟨h1, h2, h3, h4, h5, h6⟩ := ih (by omega)
    have hne : (run s (List.replicate m Action.drain)).host_read_idx ≠
        (run s (List.replicate m Action.drain)).write_idx := by
      rw [h1, h3]; omega
    have hs : succ64 (s.host_read_idx + m) = s.host_read_idx + (m + 1) := by
      simp only [succ64, U64] at *
      omega
    simp only [step, hne, ne_eq, not_false_eq_true, if_true, claims_append, claims,
      List.append_nil]
    exact ⟨h1, h2, by rw [h3, hs], h4, h5, h6⟩

theorem spinning_claims {s : Sys} {i w r r' : Nat} (hw : s.write_idx = w)
    (hr : s.read_idx = r) (hh : s.host_read_idx = r')
    (hfull : isFull r w s.queue_size = true) (hroom : isFull r' w s.queue_size = false)
    (hsp : Spinning w r (s.thr i)) :
    ((run s (List.replicate 7 (Action.thread i))).thr i).pc = PC.claimed ∧
    ((run s (List.replicate 7 (Action.thread i))).thr i).write_slot = w ∧
    (run s (List.replicate 7 (Action.thread i))).write_idx = succ64 w ∧
    (run s (List.replicate 7 (Action.thread i))).read_idx = r' ∧
    (run s (List.replicate 7 (Action.thread i))).host_read_idx = r' ∧
    claims (run s (List.replicate 7 (Action.thread i))).log = claims s.log ++ [w] := by
  subst hw hr hh
  rcases hsp with h | ⟨h, e⟩ | ⟨h, e⟩ | ⟨h, e⟩ | ⟨h, e, e'⟩
  · simp [List.replicate, run, step, h, hfull, hroom, atomicCAS, claims_append, claims]
  · simp [List.replicate, run, step, h, e, hfull, hroom, atomicCAS, claims_append, claims]
  · simp [List.replicate, run, step, h, e, hfull, hroom, atomicCAS, claims_append, claims]
  · simp [List.replicate, run, step, h, e, hfull, hroom, atomicCAS, claims_append, claims]
  · simp [List.replicate, run, step, h, e, e', hfull, hroom, atomicCAS, claims_append,
      claims]

/-! ## A full ring blocks until it is drained (C4) -/

/-- C4. Let thread `i` enter `build_queue_element` in a state whose write index is exactly
`queue_size` ahead of the local read index, the descriptor's read index being equal to the
local one. Then `isFull` is true; however many steps the thread takes while nothing is
drained, the write index is unchanged, no index is claimed and the thread never reaches the
compare-and-swap; and once the consumer has advanced the descriptor's read index (by `m > 0`
elements), `isFull` is false for the reloaded index and within 7 further steps of the thread
its compare-and-swap has claimed the logical index `write_idx` (the only claim made),
advancing the write index by one. -/
theorem full_queue_blocks_until_drained (s : Sys) (i : Nat)
    (hpc : (s.thr i).pc = PC.entry)
    (hrw : s.read_idx ≤ s.write_idx) (hw : s.write_idx < U64)
    (hfull : s.write_idx - s.read_idx = s.queue_size)
    (hhost : s.host_read_idx = s.read_idx) :
    isFull s.read_idx s.write_idx s.queue_size = true ∧
    (∀ k,
      (run s (List.replicate k (Action.thread i))).write_idx = s.write_idx ∧
      claims (run s (List.replicate k (Action.thread i))).log = claims s.log ∧
      ((run s (List.replicate k (Action.thread i))).thr i).pc ≠ PC.cas ∧
      ((run s (List.replicate k (Action.thread i))).thr i).pc ≠ PC.claimed) ∧
    (∀ k m, 0 < m → s.read_idx + m ≤ s.write_idx →
      isFull (s.read_idx + m) s.write_idx s.queue_size = false ∧
      (run s (List.replicate k (Action.thread i) ++ List.replicate m Action.drain)
        ).host_read_idx = s.read_idx + m ∧
      ((run s (List.replicate k (Action.thread i) ++ List.replicate m Action.drain ++
        List.replicate 7 (Action.thread i))).thr i).pc = PC.claimed ∧
      ((run s (List.replicate k (Action.thread i) ++ List.replicate m Action.drain ++
        List.replicate 7 (Action.thread i))).thr i).write_slot = s.write_idx ∧
      (run s (List.replicate k (Action.thread i) ++ List.replicate m Action.drain ++
        List.replicate 7 (Action.thread i))).write_idx = succ64 s.write_idx ∧
      claims (run s (List.replicate k (Action.thread i) ++ List.replicate m Action.drain ++
        List.replicate 7 (Action.thread i))).log = claims s.log ++ [s.write_idx]) := by
  have hq : s.queue_size < U64 := by omega
  have hF : isFull s.read_idx s.write_idx s.queue_size = true := by
    rw [isFull_eq_true_iff hq, sub64_of_le hrw hw]
    exact hfull
  have hsp : Spinning s.write_idx s.read_idx (s.thr i) := Or.inl hpc
  refine ⟨hF, ?_, ?_⟩
  · intro k
    obtain ⟨h1, -, -, -, h5, h6⟩ := spinning_run hhost hF hsp k
    refine ⟨h1, h5, ?_, ?_⟩ <;>
      rcases h6 with h | ⟨h, -⟩ | ⟨h, -⟩ | ⟨h, -⟩ | ⟨h, -⟩ <;> rw [h] <;> decide
  · intro k m hm hle
    have hroom : isFull (s.read_idx + m) s.write_idx s.queue_size = false := by
      rw [isFull_eq_false_iff hq, sub64_of_le hle hw]
      omega
    obtain ⟨h1, h2, h3, h4, h5, h6⟩ := spinning_run hhost hF hsp k
    obtain ⟨d1, d2, d3, d4, d5, d6⟩ := drain_run (s := run s (List.replicate k (Action.thread i)))
      (by rw [h1]; exact hw) m (by rw [h1, h3]; exact hle)
    rw [← run_append] at d1 d2 d3 d4 d5 d6
    rw [h1] at d1
    rw [h2] at d2
    rw [h3] at d3
    rw [h4] at d4
    rw [h5] at d5
    have hsp' : Spinning s.write_idx s.read_idx
        ((run s (List.replicate k (Action.thread i) ++ List.replicate m Action.drain)).thr i) := by
      rw [d6]; exact h6
    obtain ⟨c1, c2, c3, -, -, c6⟩ := spinning_claims d1 d2 d3 (by rw [d4]; exact hF)
      (by rw [d4]; exact hroom) hsp'
    rw [← run_append] at c1 c2 c3 c6
    exact ⟨hroom, d3, c1, c2, c3, by rw [c6, d5]⟩

/-- C4, the scenario of the claim: capacity 2, write index 2, read index 0. The third
submission (thread 0) is still in the full-check loop after 10 steps; once one element is
drained it claims the logical index 2, which is physical slot 0. -/
theorem full_queue_blocks_until_drained_witness :
    isFull 0 2 2 = true ∧
    (run full_ring (List.replicate 10 (Action.thread 0))).write_idx = 2 ∧
    ((run full_ring (List.replicate 10 (Action.thread 0))).thr 0).pc ≠ PC.claimed ∧
    claims (run full_ring (List.replicate 10 (Action.thread 0) ++ List.replicate 1 Action.drain
      ++ List.replicate 7 (Action.thread 0))).log = [2] ∧
    physical_slot 2 2 = 0 := by
  have h := full_queue_blocks_until_drained full_ring 0 rfl (by decide) (by decide) rfl rfl
  exact ⟨h.1, (h.2.1 10).1, (h.2.1 10).2.2.2, (h.2.2 10 1 (by decide) (by decide)).2.2.2.2.2,
    rfl⟩

theorem claimers_append (l1 l2 : List Event) :
    claimers (l1 ++ l2) = claimers l1 ++ claimers l2 := by
  induction l1 with
  | nil => rfl
  | cons e l1 ih => cases e <;> simp [claimers, ih]

theorem length_le_of_nodup_of_lt {l : List Nat} {n : Nat} (hnd : l.Nodup)
    (hlt : ∀ x ∈ l, x < n) : l.length ≤ n := by
  have hsub : l.toFinset ⊆ Finset.range n := by
    intro x hx
    rw [List.mem_toFinset] at hx
    exact Finset.mem_range.mpr (hlt x hx)
  have hcard := Finset.card_le_card hsub
  rw [List.toFinset_card_of_nodup hnd, Finset.card_range] at hcard
  exact hcard

theorem length_lt_of_nodup_of_not_mem {l : List Nat} {n i : Nat} (hnd : l.Nodup)
    (hlt : ∀ x ∈ l, x < n) (hi : i < n) (hni : i ∉ l) : l.length < n := by
  have h := length_le_of_nodup_of_lt (l := i :: l) (n := n) (List.nodup_cons.mpr ⟨hni, hnd⟩)
    (by
      intro x hx
      rcases List.mem_cons.mp hx with e | e
      · rw [e]; exact hi
      · exact hlt x e)
  simpa using h

theorem le_length_of_forall_mem {l : List Nat} {n : Nat} (hall : ∀ i, i < n → i ∈ l) :
    n ≤ l.length := by
  have hsub : Finset.range n ⊆ l.toFinset := by
    intro x hx
    rw [List.mem_toFinset]
    exact hall x (Finset.mem_range.mp hx)
  have hcard := Finset.card_le_card hsub
  rw [Finset.card_range] at hcard
  exact hcard.trans (List.toFinset_card_le l)

theorem noDrainInv_init (c n : Nat) : NoDrainInv c n (Sys.init c) := by
  refine ⟨rfl, rfl, rfl, rfl, rfl, rfl, List.nodup_nil, ?_, ?_, ?_⟩
  · intro i
    simp [Sys.init, claimers, Thread.fresh]
  · intro i hi
    simp [Sys.init, claimers] at hi
  · intro i
    simp [Sys.init, Thread.fresh]

theorem noDrainInv_write_idx_lt {c n : Nat} {s : Sys} {i : Nat} (hi : NoDrainInv c n s)
    (hin : i < n) (hpc : (s.thr i).pc ≠ PC.claimed) : s.write_idx < n := by
  obtain ⟨-, -, -, -, -, h6, h7, h8, h9, -⟩ := hi
  rw [← h6]
  exact length_lt_of_nodup_of_not_mem h7 h9 hin (fun hm => hpc ((h8 i).mp hm))

theorem noDrainInv_write_idx_le {c n : Nat} {s : Sys} (hi : NoDrainInv c n s) :
    s.write_idx ≤ n := by
  obtain ⟨-, -, -, -, -, h6, h7, -, h9, -⟩ := hi
  rw [← h6]
  exact length_le_of_nodup_of_lt h7 h9

theorem isFull_zero_of_lt {x c : Nat} (hx : x < c) (hc : c < U64) : isFull 0 x c = false := by
  rw [isFull_eq_false_iff hc, sub64_of_le (Nat.zero_le x) (by omega)]
  omega

/-- A step that only changes the locals of thread `i`, which is not and does not become
`claimed`, keeps the invariant. -/
theorem noDrainInv_local {c n : Nat} {s : Sys} {i : Nat} {t' : Thread}
    (hi : NoDrainInv c n s) (hpc : (s.thr i).pc ≠ PC.claimed) (hpc' : t'.pc ≠ PC.claimed)
    (h1 : t'.pc = PC.loop_head → t'.old_write_slot ≤ s.write_idx)
    (h2 : t'.pc = PC.full_check → t'.write_slot ≤ s.write_idx)
    (h3 : t'.pc = PC.cas → t'.write_slot ≤ s.write_idx)
    (h4 : t'.pc ≠ PC.load_host) (h5 : t'.pc ≠ PC.store_read) :
    NoDrainInv c n { s with thr := Function.update s.thr i t' } := by
  obtain ⟨i1, i2, i3, i4, i5, i6, i7, i8, i9, i10⟩ := hi
  refine ⟨i1, i2, i3, i4, i5, i6, i7, ?_, i9, ?_⟩
  · intro j
    by_cases hj : j = i
    · subst hj
      simp only [Function.update_same]
      constructor
      · intro hm; exact absurd ((i8 j).mp hm) hpc
      · intro hm; exact absurd hm hpc'
    · simp only [Function.update_noteq hj]
      exact i8 j
  · intro j
    by_cases hj : j = i
    · subst hj
      simp only [Function.update_same]
      exact ⟨h1, h2, h3, h4, h5⟩
    · simp only [Function.update_noteq hj]
      exact i10 j

theorem noDrainInv_step {c n : Nat} {s : Sys} {i : Nat} (hnc : n ≤ c) (hc : c < U64)
    (hi : NoDrainInv c n s) (hin : i < n) :
    NoDrainInv c n (step s (Action.thread i)) := by
  have hloc := hi.2.2.2.2.2.2.2.2.2 i
  have hq := hi.1
  have hr := hi.2.1
  cases hpc : (s.thr i).pc with
  | entry =>
    have : step s (Action.thread i) = { s with
          thr := Function.update s.thr i
                   { s.thr i with old_write_slot := s.write_idx, pc := PC.loop_head } } := by
      simp [step, hpc]
    rw [this]
    exact noDrainInv_local hi (by rw [hpc]; decide) (by simp) (fun _ => Nat.le_refl _)
      (by simp) (by simp) (by simp) (by simp)
  | loop_head =>
    have : step s (Action.thread i) = { s with
          thr := Function.update s.thr i
                   { s.thr i with write_slot := (s.thr i).old_write_slot, pc := PC.full_check } } := by
      simp [step, hpc]
    rw [this]
    exact noDrainInv_local hi (by rw [hpc]; decide) (by simp) (by simp)
      (fun _ => hloc.1 hpc) (by simp) (by simp) (by simp)
  | full_check =>
    have hlt := noDrainInv_write_idx_lt hi hin (by rw [hpc]; decide)
    have hws := hloc.2.1 hpc
    have hnf : isFull s.read_idx (s.thr i).write_slot s.queue_size = false := by
      rw [hr, hq]
      exact isFull_zero_of_lt (by omega) hc
    have : step s (Action.thread i) = { s with
          thr := Function.update s.thr i
                   { s.thr i with pc := PC.cas } } := by
      simp [step, hpc, hnf]
    rw [this]
    exact noDrainInv_local hi (by rw [hpc]; decide) (by simp) (by simp) (by simp)
      (fun _ => hws) (by simp) (by simp)
  | load_host => exact absurd hpc hloc.2.2.2.1
  | store_read => exact absurd hpc hloc.2.2.2.2
  | claimed =>
    have : step s (Action.thread i) = s := by simp [step, hpc]
    rw [this]
    exact hi
  | cas =>
    have hlt := noDrainInv_write_idx_lt hi hin (by rw [hpc]; decide)
    by_cases hws : (s.thr i).write_slot = s.write_idx
    · have : step s (Action.thread i) =
          { s with write_idx := succ64 s.write_idx,
                   thr := Function.update s.thr i
                     { s.thr i with old_write_slot := s.write_idx, pc := PC.claimed },
                   log := s.log ++ [Event.claim i s.write_idx] } := by
        simp [step, hpc, atomicCAS, hws]
      rw [this]
      have hsucc : succ64 s.write_idx = s.write_idx + 1 := by
        simp only [succ64, U64] at *
        omega
      obtain ⟨i1, i2, i3, i4, i5, i6, i7, i8, i9, i10⟩ := hi
      have hni : i ∉ claimers s.log := fun hm => by
        have := (i8 i).mp hm
        rw [hpc] at this
        exact absurd this (by decide)
      refine ⟨i1, i2, i3, ?_, ?_, ?_, ?_, ?_, ?_, ?_⟩
      · simp only [claims_append, claims, hsucc, List.range_succ, i4]
      · simp only [full_count_append, full_count, i5]
      · simp only [claimers_append, claimers, List.length_append, List.length_singleton, i6,
          hsucc]
      · simp only [claimers_append, claimers]
        exact List.Nodup.append i7 (List.nodup_singleton i) (by simpa using hni)
      · intro j
        simp only [claimers_append, claimers, List.mem_append, List.mem_singleton]
        by_cases hj : j = i
        · subst hj
          simp
        · simp only [Function.update_noteq hj, hj, or_false]
          exact i8 j
      · intro j
        simp only [claimers_append, claimers, List.mem_append, List.mem_singleton]
        rintro (hm | rfl)
        · exact i9 j hm
        · exact hin
      · intro j
        by_cases hj : j = i
        · subst hj
          simp
        · simp only [Function.update_noteq hj, hsucc]
          obtain ⟨l1, l2, l3, l4, l5⟩ := i10 j
          exact ⟨fun h => Nat.le_succ_of_le (l1 h), fun h => Nat.le_succ_of_le (l2 h),
            fun h => Nat.le_succ_of_le (l3 h), l4, l5⟩
    · have : step s (Action.thread i) = { s with
          thr := Function.update s.thr i
                   { s.thr i with old_write_slot := s.write_idx, pc := PC.loop_head } } := by
        simp [step, hpc, atomicCAS, hws, Ne.symm hws]
      rw [this]
      exact noDrainInv_local hi (by rw [hpc]; decide) (by simp) (fun _ => Nat.le_refl _)
        (by simp) (by simp) (by simp) (by simp)

theorem noDrainInv_run {c n : Nat} (hnc : n ≤ c) (hc : c < U64) (sched : List Action) :
    ∀ s, NoDrainInv c n s → (∀ a ∈ sched, ∃ i, i < n ∧ a = Action.thread i) →
      NoDrainInv c n (run s sched) := by
  induction sched with
  | nil => intro s hi _; exact hi
  | cons a rest ih =>
    intro s hi hs
    obtain ⟨i, hin, rfl⟩ := hs a (List.mem_cons_self _ _)
    exact ih _ (noDrainInv_step hnc hc hi hin)
      (fun b hb => hs b (List.mem_cons_of_mem _ hb))

theorem steps_left_le (w : Nat) (t : Thread) : steps_left w t ≤ 6 := by
  unfold steps_left
  split <;> (try split) <;> omega

theorem claimed_of_steps_left_zero {c n : Nat} {s : Sys} {i : Nat} (hi : NoDrainInv c n s)
    (hz : steps_left s.write_idx (s.thr i) = 0) : (s.thr i).pc = PC.claimed := by
  have hloc := hi.2.2.2.2.2.2.2.2.2 i
  unfold steps_left at hz
  cases hpc : (s.thr i).pc with
  | entry => simp [hpc] at hz
  | loop_head =>
    simp only [hpc] at hz
    split at hz <;> omega
  | full_check =>
    simp only [hpc] at hz
    split at hz <;> omega
  | cas =>
    simp only [hpc] at hz
    split at hz <;> omega
  | load_host => exact absurd hpc hloc.2.2.2.1
  | store_read => exact absurd hpc hloc.2.2.2.2
  | claimed => rfl

theorem steps_left_step {c n : Nat} {s : Sys} {i : Nat} (hnc : n ≤ c) (hc : c < U64)
    (hi : NoDrainInv c n s) (hin : i < n) (hpc : (s.thr i).pc ≠ PC.claimed) :
    steps_left (step s (Action.thread i)).write_idx ((step s (Action.thread i)).thr i) <
      steps_left s.write_idx (s.thr i) := by
  have hloc := hi.2.2.2.2.2.2.2.2.2 i
  have hq := hi.1
  have hr := hi.2.1
  have hlt := noDrainInv_write_idx_lt hi hin hpc
  cases hp : (s.thr i).pc with
  | entry => simp [step, hp, steps_left]
  | loop_head =>
    by_cases he : (s.thr i).old_write_slot = s.write_idx <;> simp [step, hp, steps_left, he]
  | full_check =>
    have hws := hloc.2.1 hp
    have hnf : isFull s.read_idx (s.thr i).write_slot s.queue_size = false := by
      rw [hr, hq]
      exact isFull_zero_of_lt (by omega) hc
    by_cases he : (s.thr i).write_slot = s.write_idx
    · have hnf' := hnf
      rw [he] at hnf'
      simp [step, hp, steps_left, he, hnf']
    · simp [step, hp, steps_left, he, hnf]
  | cas =>
    by_cases he : (s.thr i).write_slot = s.write_idx
    · simp [step, hp, steps_left, he, atomicCAS]
    · simp [step, hp, steps_left, he, Ne.symm he, atomicCAS]
  | load_host => exact absurd hp hloc.2.2.2.1
  | store_read => exact absurd hp hloc.2.2.2.2
  | claimed => exact absurd hp hpc

theorem finish_thread {c n : Nat} {i : Nat} (hnc : n ≤ c) (hc : c < U64) (hin : i < n) :
    ∀ (m : Nat) (s : Sys), NoDrainInv c n s → steps_left s.write_idx (s.thr i) ≤ m →
      ((run s (List.replicate m (Action.thread i))).thr i).pc = PC.claimed := by
  intro m
  induction m with
  | zero =>
    intro s hi hm
    exact claimed_of_steps_left_zero hi (Nat.le_zero.mp hm)
  | succ m ih =>
    intro s hi hm
    rw [List.replicate_succ]
    change ((run (step s (Action.thread i)) (List.replicate m (Action.thread i))).thr i).pc
      = PC.claimed
    by_cases hpc : (s.thr i).pc = PC.claimed
    · have hst : step s (Action.thread i) = s := by simp [step, hpc]
      rw [hst]
      exact ih s hi (by simp [steps_left, hpc])
    · have hdec := steps_left_step hnc hc hi hin hpc
      exact ih _ (noDrainInv_step hnc hc hi hin) (by omega)

theorem claimed_stable (s : Sys) (a : Action) (j : Nat) (h : (s.thr j).pc = PC.claimed) :
    ((step s a).thr j).pc = PC.claimed := by
  cases a with
  | drain =>
    simp only [step]
    split <;> exact h
  | thread i =>
    by_cases hj : j = i
    · subst hj
      simp [step, h]
    · cases hp : (s.thr i).pc <;> simp only [step, hp] <;> (try split) <;>
        simp [Function.update_noteq hj, h]

theorem claimed_stable_run (sched : List Action) (j : Nat) :
    ∀ s : Sys, (s.thr j).pc = PC.claimed → ((run s sched).thr j).pc = PC.claimed := by
  induction sched with
  | nil => intro s h; exact h
  | cons a rest ih => intro s h; exact ih _ (claimed_stable s a j h)

theorem complete_all {c n : Nat} (hnc : n ≤ c) (hc : c < U64) :
    ∀ (m : Nat), m ≤ n → ∀ s, NoDrainInv c n s →
      ∃ rest, (∀ a ∈ rest, ∃ i, i < n ∧ a = Action.thread i) ∧
        ∀ i, i < m → ((run s rest).thr i).pc = PC.claimed := by
  intro m
  induction m with
  | zero =>
    intro _ s _
    exact ⟨[], by simp, by simp⟩
  | succ m ih =>
    intro hm s hi
    obtain ⟨rest, hr1, hr2⟩ := ih (by omega) s hi
    have hi1 := noDrainInv_run hnc hc rest s hi hr1
    refine ⟨rest ++ List.replicate 6 (Action.thread m), ?_, ?_⟩
    · intro a ha
      rcases List.mem_append.mp ha with h | h
      · exact hr1 a h
      · exact ⟨m, by omega, (List.eq_of_mem_replicate h)⟩
    · intro i him
      rw [run_append]
      rcases Nat.lt_succ_iff_lt_or_eq.mp him with h | h
      · exact claimed_stable_run _ i _ (hr2 i h)
      · subst h
        exact finish_thread hnc hc (by omega) 6 _ hi1 (steps_left_le _ _)

theorem map_physical_slot_range {w c : Nat} (hwc : w ≤ c) :
    (List.range w).map (fun idx => physical_slot idx c) = List.range w := by
  have h : ∀ x ∈ List.range w, physical_slot x c = id x := by
    intro x hx
    exact Nat.mod_eq_of_lt (by have := List.mem_range.mp hx; omega)
  rw [List.map_congr_left h, List.map_id]

/-! ## Submissions into a ring with room (C3) -/

/-- C3. Take a ring of capacity `c` (a 64-bit value) with write and read index 0 and `n <= c`
threads that each call `build_queue_element` once, scheduled in any interleaving of their
accesses to shared memory, with no drain. At every point of every schedule no full check has
found the ring full, the logical indices claimed so far are 0, 1, ..., `write_idx - 1` in the
order of the successful compare-and-swaps, their physical slots (index modulo `c`) are the
same numbers, each once, and `write_idx <= n`; when all `n` submissions have claimed,
`write_idx = n`, so the slots used are exactly 0 to n - 1; and every schedule can be
continued so that all `n` submissions claim their slot. -/
theorem submissions_into_room (c n : Nat) (hc : c < U64) (hn : n ≤ c) (sched : List Action)
    (hs : ∀ a ∈ sched, ∃ i, i < n ∧ a = Action.thread i) :
    full_count (run (Sys.init c) sched).log = 0 ∧
    claims (run (Sys.init c) sched).log = List.range (run (Sys.init c) sched).write_idx ∧
    (claims (run (Sys.init c) sched).log).map (fun idx => physical_slot idx c) =
      List.range (run (Sys.init c) sched).write_idx ∧
    (run (Sys.init c) sched).write_idx ≤ n ∧
    ((∀ i, i < n → ((run (Sys.init c) sched).thr i).pc = PC.claimed) →
      (run (Sys.init c) sched).write_idx = n) ∧
    (∃ rest, (∀ a ∈ rest, ∃ i, i < n ∧ a = Action.thread i) ∧
      ∀ i, i < n → ((run (Sys.init c) (sched ++ rest)).thr i).pc = PC.claimed) := by
  have hi := noDrainInv_run hn hc sched _ (noDrainInv_init c n) hs
  have hle := noDrainInv_write_idx_le hi
  obtain ⟨-, -, -, i4, i5, i6, -, i8, -, -⟩ := hi
  refine ⟨i5, i4, ?_, hle, ?_, ?_⟩
  · rw [i4]
    exact map_physical_slot_range (by omega)
  · intro hall
    have h := le_length_of_forall_mem (l := claimers (run (Sys.init c) sched).log)
      (fun i hin => (i8 i).mpr (hall i hin))
    omega
  · obtain ⟨rest, hr1, hr2⟩ := complete_all hn hc n (Nat.le_refl n) _
      (noDrainInv_run hn hc sched _ (noDrainInv_init c n) hs)
    exact ⟨rest, hr1, fun i hin => by rw [run_append]; exact hr2 i hin⟩

/-- C3, the scenario of the claim: capacity 4 and four threads that submit concurrently,
taking turns. No submission finds the ring full, the slots 0, 1, 2, 3 are used once each and
the write index is 4. -/
theorem submissions_into_room_witness :
    full_count (run (Sys.init 4) round_robin_schedule).log = 0 ∧
    (claims (run (Sys.init 4) round_robin_schedule).log).map (fun idx => physical_slot idx 4)
      = [0, 1, 2, 3] ∧
    (run (Sys.init 4) round_robin_schedule).write_idx = 4 := by
  have h := submissions_into_room 4 4 (by decide) (by decide) round_robin_schedule
    (by decide)
  have hw : (run (Sys.init 4) round_robin_schedule).write_idx = 4 :=
    h.2.2.2.2.1 (by decide)
  refine ⟨h.1, ?_, hw⟩
  rw [h.2.2.1, hw]
  rfl

/-! ## Slot uniqueness under interleaving (C2) -/

theorem step_claims (s : Sys) (a : Action) :
    ((step s a).write_idx = s.write_idx ∧ claims (step s a).log = claims s.log) ∨
    ((step s a).write_idx = succ64 s.write_idx ∧
      claims (step s a).log = claims s.log ++ [s.write_idx]) := by
  cases a with
  | drain =>
    left
    simp only [step]
    split <;> simp [claims_append, claims]
  | thread i =>
    cases hp : (s.thr i).pc with
    | cas =>
      by_cases he : (s.thr i).write_slot = s.write_idx
      · right
        simp [step, hp, atomicCAS, he, claims_append, claims]
      · left
        simp [step, hp, atomicCAS, he, Ne.symm he]
    | full_check =>
      left
      simp only [step, hp]
      split <;> simp [claims_append, claims]
    | entry => left; simp [step, hp]
    | loop_head => left; simp [step, hp]
    | load_host => left; simp [step, hp]
    | store_read => left; simp [step, hp]
    | claimed => left; simp [step, hp]

/-- The part of slot uniqueness that the code does guarantee, for every schedule of thread
and consumer steps from any state: the write index changes only by a successful
compare-and-swap, by one (modulo 2^64) each time, and the k indices handed out are the
consecutive values `write_idx, write_idx + 1, ...` (modulo 2^64) in the order of the
successful compare-and-swaps. -/
theorem claims_consecutive (sched : List Action) :
    ∀ s : Sys, s.write_idx < U64 →
      ∃ k, (run s sched).write_idx = (s.write_idx + k) % U64 ∧
        claims (run s sched).log =
          claims s.log ++ (List.range k).map (fun j => (s.write_idx + j) % U64) := by
  induction sched with
  | nil =>
    intro s hw
    exact ⟨0, by simp [run, Nat.mod_eq_of_lt hw], by simp [run]⟩
  | cons a rest ih =>
    intro s hw
    rcases step_claims s a with ⟨h1, h2⟩ | ⟨h1, h2⟩
    · obtain ⟨k, e1, e2⟩ := ih (step s a) (by rw [h1]; exact hw)
      exact ⟨k, by rw [← h1]; exact e1, by rw [← h1, ← h2]; exact e2⟩
    · obtain ⟨k, e1, e2⟩ := ih (step s a) (by rw [h1]; exact Nat.mod_lt _ (by decide))
      refine ⟨k + 1, ?_, ?_⟩
      · change (run (step s a) rest).write_idx = _
        rw [e1, h1]
        simp only [succ64, U64]
        omega
      · change claims (run (step s a) rest).log = _
        rw [e2, h2, h1, List.range_succ_eq_map, List.map_cons, List.map_map,
          List.append_assoc]
        congr 1
        simp only [List.singleton_append, Nat.add_zero, Nat.mod_eq_of_lt hw,
          List.cons.injEq, true_and]
        apply List.map_congr_left
        intro j _
        simp only [Function.comp, succ64, U64]
        omega

/-- C2 fails on the code for the schedule `race_schedule` on a fresh ring of capacity 2
(five threads, two drains). The events are: threads 0 and 1 claim the indices 0 and 1,
thread 2 finds the ring full, the consumer drains 0 and 1, thread 3 finds the ring full,
refreshes and claims 2, thread 4 claims 3, and thread 2, after storing its stale register
1 to the local read index, claims 4. The indices 2 and 4 are the same physical slot 0 and
index 2 was never drained: the read index is 2 and the write index 5, three undrained
elements in a ring of two. -/
theorem stale_store_race :
    (run (Sys.init 2) race_schedule).log =
      [Event.claim 0 0, Event.claim 1 1, Event.full 2, Event.drain 0, Event.drain 1,
       Event.full 3, Event.claim 3 2, Event.claim 4 3, Event.claim 2 4] ∧
    drains (run (Sys.init 2) race_schedule).log = [0, 1] ∧
    physical_slot 4 2 = physical_slot 2 2 ∧
    (run (Sys.init 2) race_schedule).read_idx = 1 ∧
    (run (Sys.init 2) race_schedule).host_read_idx = 2 ∧
    (run (Sys.init 2) race_schedule).write_idx = 5 ∧
    (run (Sys.init 2) race_schedule).queue_size <
      sub64 (run (Sys.init 2) race_schedule).write_idx
        (run (Sys.init 2) race_schedule).host_read_idx := by
  decide

/-! ## The two embeddings of the acquisition loop agree -/

theorem entry_claims_without_wait {s : Sys} {i : Nat} (hpc : (s.thr i).pc = PC.entry)
    (hroom : isFull s.read_idx s.write_idx s.queue_size = false) :
    ((run s (List.replicate 7 (Action.thread i))).thr i).pc = PC.claimed ∧
    ((run s (List.replicate 7 (Action.thread i))).thr i).write_slot = s.write_idx ∧
    (run s (List.replicate 7 (Action.thread i))).write_idx = succ64 s.write_idx ∧
    (run s (List.replicate 7 (Action.thread i))).read_idx = s.read_idx ∧
    claims (run s (List.replicate 7 (Action.thread i))).log = claims s.log ++ [s.write_idx] := by
  simp [List.replicate, run, step, hpc, hroom, atomicCAS, claims_append, claims]

/-- Whenever the function `acquire_slot` (the loop as run by one thread, the loads through
`host_read_idx` returning the read index of the descriptor) returns for a channel state,
a thread that enters `build_queue_element` in a state of the transition system with the
same indices and runs alone reaches `claimed` with the same logical index, and leaves the
same write index and local read index. -/
theorem acquire_slot_agrees_with_step (s : Sys) (i fuel : Nat) (handle h' : ro_net_wg_handle)
    (c k : Nat) (hpc : (s.thr i).pc = PC.entry)
    (hr : handle.read_idx = s.read_idx) (hw : handle.write_idx = s.write_idx)
    (hq : handle.queue_size = s.queue_size) (hh : s.host_read_idx < U64)
    (ha : acquire_slot (fun _ => s.host_read_idx) fuel handle = some (h', c, k)) :
    ((run s (List.replicate 7 (Action.thread i))).thr i).pc = PC.claimed ∧
    ((run s (List.replicate 7 (Action.thread i))).thr i).write_slot = c ∧
    (run s (List.replicate 7 (Action.thread i))).write_idx = h'.write_idx ∧
    (run s (List.replicate 7 (Action.thread i))).read_idx = h'.read_idx ∧
    claims (run s (List.replicate 7 (Action.thread i))).log = claims s.log ++ [c] := by
  obtain ⟨a1, a2, a3, a4⟩ := acquire_slot_some ha
  have hw' : h'.write_idx = succ64 s.write_idx := by rw [a2, hw]
  rw [hw, hq] at a3
  rw [hw] at a1
  subst a1
  by_cases hf : isFull s.read_idx s.write_idx s.queue_size = true
  · have hread : h'.read_idx = s.host_read_idx := by
      rcases a4 with ⟨-, e⟩ | ⟨-, e⟩
      · rw [e, hr, hf] at a3
        exact absurd a3 (by simp)
      · rw [e]
        exact Nat.mod_eq_of_lt hh
    rw [hread] at a3
    obtain ⟨c1, c2, c3, c4, -, c6⟩ :=
      spinning_claims (i := i) rfl rfl rfl hf a3 (Or.inl hpc)
    exact ⟨c1, c2, by rw [c3, hw'], by rw [c4, hread], c6⟩
  · have hroom : isFull s.read_idx s.write_idx s.queue_size = false := by simpa using hf
    have hread : h'.read_idx = s.read_idx := by
      cases fuel with
      | zero => simp [acquire_slot, acquire_loop] at ha
      | succ f =>
        rw [← hr, ← hw, ← hq] at hroom
        simp [acquire_slot, acquire_loop, poll_while_full, hroom, atomicCAS] at ha
        rw [← ha.1, hr]
    obtain ⟨c1, c2, c3, c4, c5⟩ := entry_claims_without_wait (i := i) hpc hroom
    exact ⟨c1, c2, by rw [c3, hw'], by rw [c4, hread], c5⟩

end ROC_SHMEM
